import Mathlib

/-!
Detox: `collectCliConfig`

A shallow embedding of `detox/src/configuration/collectCliConfig.js`:
the two value coercers `asBoolean` and `asNumber`, and the collector
`collectCliConfig`, together with the fragment of the JavaScript language
semantics they rely on (`typeof`, `!= null`, `!==`, `Number(...)`,
property lookup, `_.omitBy`, `_.isUndefined`).
-/

set_option autoImplicit false

namespace Detox

/-! ## JavaScript numbers -/

/-- A JavaScript Number (IEEE-754 binary64). A finite value is kept in the
format's own integral form: `fin neg m e` stands for `(-1)^neg * m * 2^e`
with `m < 2^53`; normal values have `2^52 ≤ m` and `-1074 ≤ e ≤ 971`,
subnormal values and the two zeros have `e = -1074` and `m < 2^52`. -/
inductive JSNumber where
  | nan
  | inf (neg : Bool)
  | fin (neg : Bool) (m : Nat) (e : Int)
  deriving DecidableEq, Repr

namespace JSNumber

/-- The exact mathematical value of a finite Number; `none` for NaN and the
infinities. -/
def toRat : JSNumber → Option ℚ
  | nan => none
  | inf _ => none
  | fin neg m e => some ((if neg then -1 else 1) * (m : ℚ) * (2 : ℚ) ^ e)

/-- Unary minus on Numbers (`+0` becomes `-0`). -/
def neg : JSNumber → JSNumber
  | nan => nan
  | inf s => inf (!s)
  | fin s m e => fin (!s) m e

/-- The Number `+0`. -/
def zero : JSNumber := fin false 0 (-1074)

end JSNumber

/-- Auxiliary for `floorLog2`, by recursion on a fuel that bounds `n`. -/
def floorLog2Aux : Nat → Nat → Nat
  | 0, _ => 0
  | fuel + 1, n => if n < 2 then 0 else floorLog2Aux fuel (n / 2) + 1

/-- The integer binary logarithm `floor (log2 n)` (and `0` for `n = 0`). -/
def floorLog2 (n : Nat) : Nat := floorLog2Aux n n

/-- Round the non-negative rational `n / d` (with `0 < d`) to the nearest
binary64 value, ties to even (the "Number value for" a mathematical value).
`k` is `floor (log2 (n / d))`, `e` the exponent of the unit in the last
place, `q` and `r` quotient and remainder of `n / d` by `2^e`. -/
def roundRatio (n d : Nat) : JSNumber :=
  if n = 0 then JSNumber.zero
  else
    let a : Nat := floorLog2 n
    let b : Nat := floorLog2 d
    let k : Int := if d * 2 ^ a ≤ n * 2 ^ b then (a : Int) - b else (a : Int) - b - 1
    let e : Int := max (k - 52) (-1074)
    let num : Nat := n * 2 ^ (-e).toNat
    let den : Nat := d * 2 ^ e.toNat
    let q : Nat := num / den
    let r : Nat := num % den
    let up : Bool := decide (den < 2 * r) || (decide (2 * r = den) && decide (q % 2 = 1))
    let m : Nat := if up then q + 1 else q
    let m1 : Nat := if m = 2 ^ 53 then 2 ^ 52 else m
    let e1 : Int := if m = 2 ^ 53 then e + 1 else e
    if 971 < e1 then JSNumber.inf false else JSNumber.fin false m1 e1

/-- The Number value for the mathematical value `n * 10^x`. -/
def roundMV (n : Nat) (x : Int) : JSNumber :=
  roundRatio (n * 10 ^ x.toNat) (10 ^ (-x).toNat)

/-! ## `StringToNumber` (ECMA-262, `StringNumericLiteral`) -/

/-- `StrWhiteSpaceChar`: the `WhiteSpace` and `LineTerminator` code points. -/
def isStrWhiteSpaceChar (c : Char) : Bool :=
  let v := c.toNat
  v = 0x9 || v = 0xA || v = 0xB || v = 0xC || v = 0xD || v = 0x20 || v = 0xA0 ||
  v = 0x1680 || (0x2000 ≤ v && v ≤ 0x200A) || v = 0x2028 || v = 0x2029 ||
  v = 0x202F || v = 0x205F || v = 0x3000 || v = 0xFEFF

/-- Strip leading and trailing `StrWhiteSpace`. -/
def trimStrWhiteSpace (cs : List Char) : List Char :=
  ((cs.dropWhile isStrWhiteSpaceChar).reverse.dropWhile isStrWhiteSpaceChar).reverse

/-- The value of a digit in a base up to 16; `none` when `c` is no digit of
that base. -/
def digitValue (base : Nat) (c : Char) : Option Nat :=
  let v := c.toNat
  let d : Option Nat :=
    if 48 ≤ v && v ≤ 57 then some (v - 48)
    else if 97 ≤ v && v ≤ 102 then some (v - 87)
    else if 65 ≤ v && v ≤ 70 then some (v - 55)
    else none
  match d with
  | some x => if x < base then some x else none
  | none => none

/-- Whether `c` is a digit of the given base. -/
def isDigitOf (base : Nat) (c : Char) : Bool := (digitValue base c).isSome

/-- The mathematical value of a digit string in the given base (most
significant digit first). -/
def digitsMV (base : Nat) (ds : List Char) : Nat :=
  ds.foldl (fun acc c => base * acc + (digitValue base c).getD 0) 0

/-- `ExponentPart` (optional), which must reach the end of the literal:
nothing, or `e`/`E`, an optional sign and at least one decimal digit. -/
def parseExponentPart (cs : List Char) : Option Int :=
  let digits (ds : List Char) (sign : Int) : Option Int :=
    if !ds.isEmpty && ds.all (isDigitOf 10) then some (sign * (digitsMV 10 ds : Int)) else none
  let signed (t : List Char) : Option Int :=
    match t with
    | '+' :: ds => digits ds 1
    | '-' :: ds => digits ds (-1)
    | ds => digits ds 1
  match cs with
  | [] => some 0
  | 'e' :: t => signed t
  | 'E' :: t => signed t
  | _ => none

/-- `StrUnsignedDecimalLiteral`: `Infinity`, or decimal digits with an
optional fraction and exponent, at least one digit before or after the dot. -/
def parseStrUnsignedDecimalLiteral (cs : List Char) : Option JSNumber :=
  if cs = "Infinity".toList then some (JSNumber.inf false)
  else
    let ip := cs.takeWhile (isDigitOf 10)
    let r1 := cs.dropWhile (isDigitOf 10)
    let fr : List Char × List Char :=
      match r1 with
      | '.' :: t => (t.takeWhile (isDigitOf 10), t.dropWhile (isDigitOf 10))
      | _ => ([], r1)
    if ip.isEmpty && fr.1.isEmpty then none
    else
      match parseExponentPart fr.2 with
      | none => none
      | some x => some (roundMV (digitsMV 10 (ip ++ fr.1)) (x - (fr.1.length : Int)))

/-- `StrDecimalLiteral`: an optional sign and an unsigned decimal literal. -/
def parseStrDecimalLiteral (cs : List Char) : Option JSNumber :=
  match cs with
  | '+' :: t => parseStrUnsignedDecimalLiteral t
  | '-' :: t => (parseStrUnsignedDecimalLiteral t).map JSNumber.neg
  | _ => parseStrUnsignedDecimalLiteral cs

/-- `NonDecimalIntegerLiteral` digits: at least one digit of the base. -/
def parseNonDecimal (base : Nat) (ds : List Char) : Option JSNumber :=
  if !ds.isEmpty && ds.all (isDigitOf base) then some (roundMV (digitsMV base ds) 0) else none

/-- `StrNumericLiteral`: a binary, octal or hexadecimal integer literal, or
a signed decimal literal. -/
def parseStrNumericLiteral (cs : List Char) : Option JSNumber :=
  match cs with
  | '0' :: 'b' :: t => parseNonDecimal 2 t
  | '0' :: 'B' :: t => parseNonDecimal 2 t
  | '0' :: 'o' :: t => parseNonDecimal 8 t
  | '0' :: 'O' :: t => parseNonDecimal 8 t
  | '0' :: 'x' :: t => parseNonDecimal 16 t
  | '0' :: 'X' :: t => parseNonDecimal 16 t
  | _ => parseStrDecimalLiteral cs

/-- `StringToNumber`: white space is trimmed; the empty literal is `+0`; a
string that is no `StringNumericLiteral` is NaN. -/
def StringToNumber (s : String) : JSNumber :=
  let cs := trimStrWhiteSpace s.toList
  if cs.isEmpty then JSNumber.zero
  else
    match parseStrNumericLiteral cs with
    | some x => x
    | none => JSNumber.nan

/-! ## Raw values -/

/-- A raw value: the primitive JavaScript values an option can carry. -/
inductive Value where
  | undefined
  | null
  | bool (b : Bool)
  | number (x : JSNumber)
  | string (s : String)
  deriving DecidableEq, Repr

/-- The JavaScript `Number(value)` conversion (`ToNumber`) on primitives. -/
def Number : Value → JSNumber
  | .undefined => JSNumber.nan
  | .null => JSNumber.zero
  | .bool true => roundMV 1 0
  | .bool false => JSNumber.zero
  | .number x => x
  | .string s => StringToNumber s

/-- `_.isUndefined(value)`: `value === undefined`. -/
def isUndefined (value : Value) : Bool :=
  match value with
  | .undefined => true
  | _ => false

/-- `value != null`: false exactly for `null` and `undefined`. -/
def neNull (value : Value) : Bool :=
  match value with
  | .undefined => false
  | .null => false
  | _ => true

/-- `value !== 'lit'`: strict inequality with a string literal; a value of
another type is never strictly equal to a string. -/
def strictNeString (value : Value) (lit : String) : Bool :=
  match value with
  | .string s => s != lit
  | _ => true

/-- The integer that the finite magnitude `m * 2^e` denotes, when it is
one. -/
def integralValue (m : Nat) (e : Int) : Option Nat :=
  if 0 ≤ e then some (m * 2 ^ e.toNat)
  else if m % 2 ^ (-e).toNat = 0 then some (m / 2 ^ (-e).toNat) else none

/-- `Number::toString` in radix 10, for NaN, the zeros, the infinities and
the integers of magnitude below `2^53`, which print as their exact decimal
digits. Other finite values (fractions, and integers from `2^53` on, which
print as shortest round-trip digits) are outside this model: `none`. -/
def numberToString : JSNumber → Option String
  | .nan => some "NaN"
  | .inf false => some "Infinity"
  | .inf true => some "-Infinity"
  | .fin neg m e =>
    if m = 0 then some "0"
    else
      match integralValue m e with
      | some n => if n < 2 ^ 53 then some ((if neg then "-" else "") ++ Nat.repr n) else none
      | none => none

/-- The string form `String(value)` (`ToString`) of a primitive; `none`
where `numberToString` is. -/
def stringOf : Value → Option String
  | .undefined => some "undefined"
  | .null => some "null"
  | .bool true => some "true"
  | .bool false => some "false"
  | .number x => numberToString x
  | .string s => some s

/-! ## The coercers -/

/-- The source function `asBoolean`. -/
def asBoolean (value : Value) : Value :=
  match value with
  | .bool b => .bool b
  | _ =>
    if neNull value then
      .bool (strictNeString value "false" && strictNeString value "0" && strictNeString value "")
    else .undefined

/-- The source function `asNumber`. -/
def asNumber (value : Value) : Value :=
  match value with
  | .number x => .number x
  | _ =>
    if neNull value && strictNeString value "" then .number (Number value)
    else .undefined

/-! ## Records and the collector -/

/-- A plain object: its own properties in insertion order. -/
abbrev Record := List (String × Value)

/-- Property access `obj[key]`: the value of the property, `undefined` when
the object has no such property. -/
def getProperty (obj : Record) (key : String) : Value :=
  match obj.lookup key with
  | some v => v
  | none => .undefined

/-- `_.omitBy(object, predicate)`: the properties of `object` whose value
does not satisfy `predicate`. -/
def omitBy (object : Record) (predicate : Value → Bool) : Record :=
  object.filter (fun kv => !predicate kv.2)

/-- The source function `collectCliConfig`. The argument-lookup collaborator
`argparse.getArgValue` is a parameter, an action of an arbitrary monad `m`;
`argv` is `none` when no explicit source is supplied (a falsy `argv`). -/
def collectCliConfig {m : Type → Type} [Monad m] (getArgValue : String → m Value)
    (argv : Option Record) : m Record := do
  let env := fun (key : String) => getArgValue key
  let get := fun (key : String) =>
    match argv with
    | some a => pure (getProperty a key)
    | none => env key
  return omitBy [
    ("artifactsLocation", ← get "artifacts-location"),
    ("captureViewHierarchy", ← get "capture-view-hierarchy"),
    ("recordLogs", ← get "record-logs"),
    ("takeScreenshots", ← get "take-screenshots"),
    ("recordVideos", ← get "record-videos"),
    ("recordPerformance", ← get "record-performance"),
    ("recordTimeline", ← get "record-timeline"),
    ("cleanup", asBoolean (← get "cleanup")),
    ("configPath", ← get "config-path"),
    ("configuration", ← get "configuration"),
    ("debugSynchronization", asNumber (← get "debug-synchronization")),
    ("deviceBootArgs", ← get "device-boot-args"),
    ("appLaunchArgs", ← get "app-launch-args"),
    ("deviceName", ← get "device-name"),
    ("forceAdbInstall", asBoolean (← get "force-adb-install")),
    ("gpu", ← get "gpu"),
    ("headless", asBoolean (← get "headless")),
    ("jestReportSpecs", asBoolean (← get "jest-report-specs")),
    ("keepLockFile", asBoolean (← get "keepLockFile")),
    ("loglevel", ← get "loglevel"),
    ("noColor", asBoolean (← get "no-color")),
    ("reuse", asBoolean (← get "reuse")),
    ("runnerConfig", ← get "runner-config"),
    ("useCustomLogger", asBoolean (← get "use-custom-logger")),
    ("workers", asNumber (← get "workers")),
    ("inspectBrk", asBoolean (← get "inspect-brk"))
  ] isUndefined

/-- The collector run against a collaborator that answers every query with
a value and has no effect: `getArgValue key` is the answer to `key`. -/
def collect (getArgValue : String → Value) (argv : Option Record) : Record :=
  Id.run (collectCliConfig (m := Id) (fun key => pure (getArgValue key)) argv)

/-! ## The option table -/

/-- The coercion policy of an option. -/
inductive Policy where
  | identity
  | boolean
  | number
  deriving DecidableEq, Repr

/-- What a policy does to a raw value. -/
def Policy.apply : Policy → Value → Value
  | .identity, v => v
  | .boolean, v => asBoolean v
  | .number, v => asNumber v

/-- One option: the raw key read from the source, the canonical field
written to the output, and the coercion policy. -/
structure OptionRow where
  rawKey : String
  field : String
  policy : Policy
  deriving DecidableEq, Repr

/-- The options of `collectCliConfig`, one row per property of its object
literal, in source order. -/
def optionTable : List OptionRow := [
  ⟨"artifacts-location", "artifactsLocation", .identity⟩,
  ⟨"capture-view-hierarchy", "captureViewHierarchy", .identity⟩,
  ⟨"record-logs", "recordLogs", .identity⟩,
  ⟨"take-screenshots", "takeScreenshots", .identity⟩,
  ⟨"record-videos", "recordVideos", .identity⟩,
  ⟨"record-performance", "recordPerformance", .identity⟩,
  ⟨"record-timeline", "recordTimeline", .identity⟩,
  ⟨"cleanup", "cleanup", .boolean⟩,
  ⟨"config-path", "configPath", .identity⟩,
  ⟨"configuration", "configuration", .identity⟩,
  ⟨"debug-synchronization", "debugSynchronization", .number⟩,
  ⟨"device-boot-args", "deviceBootArgs", .identity⟩,
  ⟨"app-launch-args", "appLaunchArgs", .identity⟩,
  ⟨"device-name", "deviceName", .identity⟩,
  ⟨"force-adb-install", "forceAdbInstall", .boolean⟩,
  ⟨"gpu", "gpu", .identity⟩,
  ⟨"headless", "headless", .boolean⟩,
  ⟨"jest-report-specs", "jestReportSpecs", .boolean⟩,
  ⟨"keepLockFile", "keepLockFile", .boolean⟩,
  ⟨"loglevel", "loglevel", .identity⟩,
  ⟨"no-color", "noColor", .boolean⟩,
  ⟨"reuse", "reuse", .boolean⟩,
  ⟨"runner-config", "runnerConfig", .identity⟩,
  ⟨"use-custom-logger", "useCustomLogger", .boolean⟩,
  ⟨"workers", "workers", .number⟩,
  ⟨"inspect-brk", "inspectBrk", .boolean⟩
]

/-- The value provider `get` of `collectCliConfig` against a collaborator
without effect: the explicit source when there is one, the collaborator
otherwise. -/
def provider (getArgValue : String → Value) (argv : Option Record) (key : String) : Value :=
  match argv with
  | some a => getProperty a key
  | none => getArgValue key

/-- The rows of the specification's option table (its representative
excerpt of the fixed options). -/
def specOptionRows : List OptionRow := [
  ⟨"artifacts-location", "artifactsLocation", .identity⟩,
  ⟨"cleanup", "cleanup", .boolean⟩,
  ⟨"debug-synchronization", "debugSynchronization", .number⟩,
  ⟨"device-name", "deviceName", .identity⟩,
  ⟨"force-adb-install", "forceAdbInstall", .boolean⟩,
  ⟨"headless", "headless", .boolean⟩,
  ⟨"workers", "workers", .number⟩,
  ⟨"inspect-brk", "inspectBrk", .boolean⟩
]

/-- A collaborator that keeps a log of the keys it is queried with and
answers every query with the string `"1"`. -/
def loggingArgValue (key : String) : StateM (List String) Value := do
  modify (fun log => log ++ [key])
  return .string "1"

/-- A decimal digit character, as printed by `Nat.digitChar`. -/
def IsDecChar (c : Char) : Prop := ∃ d, d < 10 ∧ c = Nat.digitChar d

/-- The lower-case hyphen-separated form of a camelCase name: every
upper-case letter becomes a hyphen followed by its lower-case form. -/
def kebabCase (s : String) : String :=
  String.mk (s.toList.flatMap fun c => if c.isUpper then ['-', c.toLower] else [c])

/-- The explicit source that maps each raw option key to the answer of the
collaborator `L` for it. -/
def sourceOf (L : String → Value) : Record :=
  optionTable.map fun row => (row.rawKey, L row.rawKey)

/-- The raw keys of the identity-policy options. -/
def identityKeys : List String := [
  "artifacts-location", "capture-view-hierarchy", "record-logs", "take-screenshots",
  "record-videos", "record-performance", "record-timeline", "config-path", "configuration",
  "device-boot-args", "app-launch-args", "device-name", "gpu", "loglevel", "runner-config"]

/-- The Number `1`. -/
def JSNumber.one : JSNumber := .fin false (2 ^ 52) (-52)

/-! ## The grammar `StringNumericLiteral` -/

/-- `DecimalDigit`: one of `0` to `9`. -/
def isDecimalDigit (c : Char) : Bool := decide (48 ≤ c.toNat ∧ c.toNat ≤ 57)

/-- `BinaryDigit`: `0` or `1`. -/
def isBinaryDigit (c : Char) : Bool := decide (48 ≤ c.toNat ∧ c.toNat ≤ 49)

/-- `OctalDigit`: one of `0` to `7`. -/
def isOctalDigit (c : Char) : Bool := decide (48 ≤ c.toNat ∧ c.toNat ≤ 55)

/-- `HexDigit`: one of `0` to `9`, `a` to `f`, `A` to `F`. -/
def isHexDigit (c : Char) : Bool :=
  decide ((48 ≤ c.toNat ∧ c.toNat ≤ 57) ∨ (97 ≤ c.toNat ∧ c.toNat ≤ 102) ∨
    (65 ≤ c.toNat ∧ c.toNat ≤ 70))

/-- `DecimalDigits`: a non-empty run of decimal digits. -/
def IsDecimalDigits (ds : List Char) : Prop := ds ≠ [] ∧ ∀ c ∈ ds, isDecimalDigit c = true

/-- `SignedInteger`: decimal digits, optionally after `+` or `-`. -/
def IsSignedInteger (cs : List Char) : Prop :=
  IsDecimalDigits cs ∨ ∃ ds, (cs = '+' :: ds ∨ cs = '-' :: ds) ∧ IsDecimalDigits ds

/-- `ExponentPart`: `e` or `E` and a signed integer. -/
def IsExponentPart (cs : List Char) : Prop :=
  ∃ t, (cs = 'e' :: t ∨ cs = 'E' :: t) ∧ IsSignedInteger t

/-- `StrUnsignedDecimalLiteral`: `Infinity`; digits, a dot, optional digits
and an optional exponent; a dot, digits and an optional exponent; or digits
and an optional exponent. -/
def IsStrUnsignedDecimalLiteral (cs : List Char) : Prop :=
  cs = "Infinity".toList ∨
  (∃ ip fp ex, cs = ip ++ '.' :: (fp ++ ex) ∧ IsDecimalDigits ip ∧
    (fp = [] ∨ IsDecimalDigits fp) ∧ (ex = [] ∨ IsExponentPart ex)) ∨
  (∃ fp ex, cs = '.' :: (fp ++ ex) ∧ IsDecimalDigits fp ∧ (ex = [] ∨ IsExponentPart ex)) ∨
  (∃ ip ex, cs = ip ++ ex ∧ IsDecimalDigits ip ∧ (ex = [] ∨ IsExponentPart ex))

/-- `StrDecimalLiteral`: an unsigned decimal literal, optionally after `+`
or `-`. -/
def IsStrDecimalLiteral (cs : List Char) : Prop :=
  IsStrUnsignedDecimalLiteral cs ∨
  ∃ t, (cs = '+' :: t ∨ cs = '-' :: t) ∧ IsStrUnsignedDecimalLiteral t

/-- `NonDecimalIntegerLiteral`: `0b`, `0o` or `0x` (in either case) and at
least one digit of the base, without separators. -/
def IsNonDecimalIntegerLiteral (cs : List Char) : Prop :=
  ∃ ds, ds ≠ [] ∧
    (((cs = '0' :: 'b' :: ds ∨ cs = '0' :: 'B' :: ds) ∧ ∀ c ∈ ds, isBinaryDigit c = true) ∨
     ((cs = '0' :: 'o' :: ds ∨ cs = '0' :: 'O' :: ds) ∧ ∀ c ∈ ds, isOctalDigit c = true) ∨
     ((cs = '0' :: 'x' :: ds ∨ cs = '0' :: 'X' :: ds) ∧ ∀ c ∈ ds, isHexDigit c = true))

/-- `StrNumericLiteral`: a decimal literal or a non-decimal integer literal. -/
def IsStrNumericLiteral (cs : List Char) : Prop :=
  IsStrDecimalLiteral cs ∨ IsNonDecimalIntegerLiteral cs

/-- `StringNumericLiteral`: optional white space alone, or a numeric literal
with optional white space before and after it. A string is numeric when
its characters form one. -/
def IsStringNumericLiteral (s : String) : Prop :=
  ∃ w1 body w2, s.toList = w1 ++ body ++ w2 ∧
    (∀ c ∈ w1, isStrWhiteSpaceChar c = true) ∧ (∀ c ∈ w2, isStrWhiteSpaceChar c = true) ∧
    (body = [] ∨ IsStrNumericLiteral body)

/-- A string denotes a number when it is a numeric literal
(`StrNumericLiteral`), with optional white space before and after it. -/
def DenotesNumber (s : String) : Prop :=
  ∃ w1 body w2, s.toList = w1 ++ body ++ w2 ∧
    (∀ c ∈ w1, isStrWhiteSpaceChar c = true) ∧ (∀ c ∈ w2, isStrWhiteSpaceChar c = true) ∧
    IsStrNumericLiteral body

/-- A string of white space alone (the empty string included). -/
def IsWhiteSpace (s : String) : Prop := ∀ c ∈ s.toList, isStrWhiteSpaceChar c = true

/-! ## The collector with its raise sites -/

/-- A JavaScript exception. -/
inductive JSError where
  | typeError (message : String)
  | other (message : String)
  deriving DecidableEq, Repr

/-- A value as a caller can supply it: a primitive raw value, or a Symbol,
the kind of value on which `Number(...)` raises. -/
inductive Raw where
  | prim (v : Value)
  | symbol
  deriving DecidableEq, Repr

/-- An object whose property values are of any supplied kind. -/
abbrev RawRecord := List (String × Raw)

/-- What `collectCliConfig` is called with: no argument (`undefined`),
`null`, or an options object whose property `argv` is an explicit source or
is absent. -/
inductive CallArg where
  | undefined
  | null
  | options (argv : Option RawRecord)
  deriving DecidableEq, Repr

/-- `typeof value`. -/
def typeOf : Raw → String
  | .prim .undefined => "undefined"
  | .prim .null => "object"
  | .prim (.bool _) => "boolean"
  | .prim (.number _) => "number"
  | .prim (.string _) => "string"
  | .symbol => "symbol"

/-- `value != null` on supplied values. -/
def neNullRaw : Raw → Bool
  | .prim v => neNull v
  | .symbol => true

/-- `value !== 'lit'` on supplied values. -/
def strictNeStringRaw : Raw → String → Bool
  | .prim v, lit => strictNeString v lit
  | .symbol, _ => true

/-- `Number(value)` with its exception: a Symbol cannot be converted. -/
def NumberChecked : Raw → Except JSError JSNumber
  | .prim v => .ok (Number v)
  | .symbol => .error (.typeError "Cannot convert a Symbol value to a number")

/-- The source function `asBoolean`, on supplied values, with exceptions
explicit. -/
def asBooleanChecked (value : Raw) : Except JSError Raw :=
  if typeOf value = "boolean" then
    pure value
  else
    pure (if neNullRaw value then
        .prim (.bool (strictNeStringRaw value "false" && strictNeStringRaw value "0" &&
          strictNeStringRaw value ""))
      else .prim .undefined)

/-- The source function `asNumber`, on supplied values, with exceptions
explicit. -/
def asNumberChecked (value : Raw) : Except JSError Raw :=
  if typeOf value = "number" then
    pure value
  else if neNullRaw value && strictNeStringRaw value "" then do
    let x ← NumberChecked value
    pure (.prim (.number x))
  else pure (.prim .undefined)

/-- Property access `obj[key]` on an object of supplied values. -/
def getPropertyRaw (obj : RawRecord) (key : String) : Raw :=
  match obj.lookup key with
  | some v => v
  | none => .prim .undefined

/-- `_.isUndefined(value)` on supplied values. -/
def isUndefinedRaw : Raw → Bool
  | .prim v => isUndefined v
  | .symbol => false

/-- `_.omitBy(object, predicate)` on an object of supplied values. -/
def omitByRaw (object : RawRecord) (predicate : Raw → Bool) : RawRecord :=
  object.filter (fun kv => !predicate kv.2)

/-- The parameter pattern `{ argv }`: destructuring `undefined` or `null`
raises a TypeError; an options object gives its property `argv`. -/
def destructureArgv : CallArg → Except JSError (Option RawRecord)
  | .undefined => .error (.typeError "Cannot destructure property 'argv' of 'undefined'")
  | .null => .error (.typeError "Cannot destructure property 'argv' of 'null'")
  | .options argv => .ok argv

/-- The source function `collectCliConfig` with every raise site explicit:
the parameter pattern, the collaborator, and `Number(...)` inside
`asNumber`. -/
def collectCliConfigChecked (getArgValue : String → Except JSError Raw) (arg : CallArg) :
    Except JSError RawRecord := do
  let argv ← destructureArgv arg
  let env := fun (key : String) => getArgValue key
  let get := fun (key : String) =>
    match argv with
    | some a => pure (getPropertyRaw a key)
    | none => env key
  return omitByRaw [
    ("artifactsLocation", ← get "artifacts-location"),
    ("captureViewHierarchy", ← get "capture-view-hierarchy"),
    ("recordLogs", ← get "record-logs"),
    ("takeScreenshots", ← get "take-screenshots"),
    ("recordVideos", ← get "record-videos"),
    ("recordPerformance", ← get "record-performance"),
    ("recordTimeline", ← get "record-timeline"),
    ("cleanup", ← asBooleanChecked (← get "cleanup")),
    ("configPath", ← get "config-path"),
    ("configuration", ← get "configuration"),
    ("debugSynchronization", ← asNumberChecked (← get "debug-synchronization")),
    ("deviceBootArgs", ← get "device-boot-args"),
    ("appLaunchArgs", ← get "app-launch-args"),
    ("deviceName", ← get "device-name"),
    ("forceAdbInstall", ← asBooleanChecked (← get "force-adb-install")),
    ("gpu", ← get "gpu"),
    ("headless", ← asBooleanChecked (← get "headless")),
    ("jestReportSpecs", ← asBooleanChecked (← get "jest-report-specs")),
    ("keepLockFile", ← asBooleanChecked (← get "keepLockFile")),
    ("loglevel", ← get "loglevel"),
    ("noColor", ← asBooleanChecked (← get "no-color")),
    ("reuse", ← asBooleanChecked (← get "reuse")),
    ("runnerConfig", ← get "runner-config"),
    ("useCustomLogger", ← asBooleanChecked (← get "use-custom-logger")),
    ("workers", ← asNumberChecked (← get "workers")),
    ("inspectBrk", ← asBooleanChecked (← get "inspect-brk"))
  ] isUndefinedRaw

/-- An object of primitive raw values, as an object of supplied values. -/
def liftRecord (r : Record) : RawRecord := r.map fun kv => (kv.1, Raw.prim kv.2)

/-! ## Basic facts -/

/-- Against a collaborator without effect the collector is the option table
read through the value provider, filtered by `omitBy isUndefined`. -/
theorem collect_eq_table (L : String → Value) (argv : Option Record) :
    collect L argv =
      omitBy (optionTable.map fun row => (row.field, row.policy.apply (provider L argv row.rawKey)))
        isUndefined := by
  cases argv <;> rfl

/-- Membership in a filtered table whose fields are distinct. -/
theorem mem_omitBy_table (l : List OptionRow) (f : OptionRow → Value) (p : Value → Bool)
    (hnd : (l.map OptionRow.field).Nodup) (row : OptionRow) (hrow : row ∈ l) (v : Value) :
    (row.field, v) ∈ omitBy (l.map fun r => (r.field, f r)) p ↔ v = f row ∧ p (f row) = false := by
  unfold omitBy
  simp only [List.mem_filter, List.mem_map, Prod.mk.injEq, Bool.not_eq_true']
  constructor
  · rintro ⟨⟨r, hr, hf, hv⟩, hp⟩
    have : r = row := List.inj_on_of_nodup_map hnd hr hrow hf
    subst this
    exact ⟨hv.symm, by rw [hv]; exact hp⟩
  · rintro ⟨hv, hp⟩
    exact ⟨⟨row, hrow, rfl, hv.symm⟩, by rw [hv]; exact hp⟩

theorem optionTable_fields_nodup : (optionTable.map OptionRow.field).Nodup := by decide

theorem isUndefined_eq_false_iff (v : Value) : isUndefined v = false ↔ v ≠ .undefined := by
  cases v <;> simp [isUndefined]

theorem isUndefined_eq_true_iff (v : Value) : isUndefined v = true ↔ v = .undefined := by
  cases v <;> simp [isUndefined]

/-- Every policy maps `undefined` to `undefined`. -/
theorem Policy.apply_undefined (p : Policy) : p.apply .undefined = .undefined := by
  cases p <;> rfl

/-- The output has the property `row.field` with value `v` exactly when `v`
is the coerced raw value and is not `undefined`. -/
theorem mem_collect_iff (L : String → Value) (argv : Option Record) (row : OptionRow)
    (hrow : row ∈ optionTable) (v : Value) :
    (row.field, v) ∈ collect L argv ↔
      v = row.policy.apply (provider L argv row.rawKey) ∧ v ≠ .undefined := by
  rw [collect_eq_table, mem_omitBy_table _ _ _ optionTable_fields_nodup row hrow,
    isUndefined_eq_false_iff]
  constructor
  · rintro ⟨h1, h2⟩; exact ⟨h1, h1 ▸ h2⟩
  · rintro ⟨h1, h2⟩; exact ⟨h1, h1 ▸ h2⟩

theorem specOptionRows_sub : ∀ row ∈ specOptionRows, row ∈ optionTable := by decide

/-! ## The collector -/

/-- C1: for every explicit source `argv` and every row of the specification's
option table, with `c` the row's policy applied to `argv[rawKey]`: the output
has the canonical field if and only if `c` is not `undefined`, and a value
the output holds under that field is exactly `c`. -/
theorem collect_spec_rows (L : String → Value) (argv : Record) (row : OptionRow)
    (hrow : row ∈ specOptionRows) :
    ((∃ v, (row.field, v) ∈ collect L (some argv)) ↔
        row.policy.apply (getProperty argv row.rawKey) ≠ .undefined) ∧
    (∀ v, (row.field, v) ∈ collect L (some argv) →
        v = row.policy.apply (getProperty argv row.rawKey)) := by
  have h := mem_collect_iff L (some argv) row (specOptionRows_sub row hrow)
  simp only [provider] at h
  refine ⟨⟨?_, ?_⟩, ?_⟩
  · rintro ⟨v, hv⟩
    obtain ⟨h1, h2⟩ := (h v).1 hv
    exact h1 ▸ h2
  · intro hc
    exact ⟨_, (h _).2 ⟨rfl, hc⟩⟩
  · intro v hv
    exact ((h v).1 hv).1

/-- Witness of C1 at the source `{workers: "4"}` and the row of `workers`. -/
theorem collect_spec_rows_witness :
    (⟨"workers", "workers", .number⟩ : OptionRow) ∈ specOptionRows ∧
    ((∃ v, ("workers", v) ∈ collect (fun _ => .undefined) (some [("workers", .string "4")])) ↔
        asNumber (getProperty [("workers", .string "4")] "workers") ≠ .undefined) ∧
    (∀ v, ("workers", v) ∈ collect (fun _ => .undefined) (some [("workers", .string "4")]) →
        v = asNumber (getProperty [("workers", .string "4")] "workers")) :=
  ⟨by decide,
    collect_spec_rows (fun _ => .undefined) [("workers", .string "4")]
      ⟨"workers", "workers", .number⟩ (by decide)⟩

/-- C2: the explicit source `{cleanup: "false", workers: "4", headless: true}`
gives exactly the record `{cleanup: false, workers: 4, headless: true}`: the
three fields (listed in the order of the collector's object literal) and no
other; the Number under `workers` has the exact value 4. -/
theorem collect_example (L : String → Value) :
    collect L (some [("cleanup", .string "false"), ("workers", .string "4"),
        ("headless", .bool true)])
      = [("cleanup", .bool false), ("headless", .bool true),
         ("workers", .number (.fin false (2 ^ 52) (-50)))] ∧
    (JSNumber.fin false (2 ^ 52) (-50)).toRat = some 4 := by
  refine ⟨rfl, ?_⟩
  norm_num [JSNumber.toRat]

/-- C3: for every explicit source, every field name of the output belongs to
the vocabulary of canonical field names; a canonical field appears only if
the source holds a value other than `undefined` under the raw key of its
option; a source that sets none of the option keys, and the empty source in
particular, gives the empty record. -/
theorem collect_vocabulary (L : String → Value) (argv : Record) :
    (∀ kv ∈ collect L (some argv), kv.1 ∈ optionTable.map OptionRow.field) ∧
    (∀ row ∈ optionTable, ∀ v, (row.field, v) ∈ collect L (some argv) →
        getProperty argv row.rawKey ≠ .undefined) ∧
    ((∀ row ∈ optionTable, getProperty argv row.rawKey = .undefined) →
        collect L (some argv) = []) ∧
    collect L (some []) = [] := by
  refine ⟨?_, ?_, ?_, rfl⟩
  · intro kv hkv
    rw [collect_eq_table] at hkv
    obtain ⟨row, hrow, rfl⟩ := List.mem_map.1 (List.mem_filter.1 hkv).1
    exact List.mem_map.2 ⟨row, hrow, rfl⟩
  · intro row hrow v hv hget
    obtain ⟨h1, h2⟩ := (mem_collect_iff L (some argv) row hrow v).1 hv
    simp only [provider, hget, Policy.apply_undefined] at h1
    exact h2 h1
  · intro hall
    rw [collect_eq_table, omitBy, List.filter_eq_nil_iff]
    intro kv hkv
    obtain ⟨row, hrow, rfl⟩ := List.mem_map.1 hkv
    simp [provider, hall row hrow, Policy.apply_undefined, isUndefined]

/-- Witness of C3 at the source `{verbose: true}`, which sets no option key. -/
theorem collect_vocabulary_witness :
    (∀ row ∈ optionTable, getProperty [("verbose", .bool true)] row.rawKey = .undefined) ∧
    collect (fun _ => .string "x") (some [("verbose", .bool true)]) = [] :=
  ⟨by decide,
    (collect_vocabulary (fun _ => .string "x") [("verbose", .bool true)]).2.2.1 (by decide)⟩

/-- C4: for every input, an explicit source or none with any collaborator,
no field of the output has the value `undefined`, and filtering the output
once more with `omitBy isUndefined` returns it unchanged. -/
theorem collect_no_undefined (L : String → Value) (argv : Option Record) :
    (∀ kv ∈ collect L argv, kv.2 ≠ .undefined) ∧
    omitBy (collect L argv) isUndefined = collect L argv := by
  have h : ∀ kv ∈ collect L argv, kv.2 ≠ .undefined := by
    intro kv hkv
    rw [collect_eq_table] at hkv
    have := (List.mem_filter.1 hkv).2
    simpa [isUndefined_eq_false_iff] using this
  refine ⟨h, ?_⟩
  rw [omitBy, List.filter_eq_self]
  intro kv hkv
  simpa [isUndefined_eq_false_iff] using h kv hkv

/-- Witness of C4 with no explicit source and a collaborator that answers
`"1"` to every query: the output holds `cleanup: true`, which is not
`undefined`. -/
theorem collect_no_undefined_witness :
    (("cleanup", Value.bool true) : String × Value) ∈ collect (fun _ => .string "1") none ∧
    (("cleanup", Value.bool true) : String × Value).2 ≠ .undefined :=
  ⟨by decide,
    (collect_no_undefined (fun _ => .string "1") none).1 ("cleanup", .bool true) (by decide)⟩

/-- C5: with an explicit source the collaborator is never queried: for every
monad of collaborator effects and every two collaborators the two runs are
the same computation, and that computation is a `pure` one, it performs no
effect of the collaborator at all. -/
theorem collect_source_exclusive {m : Type → Type} [Monad m] [LawfulMonad m]
    (E1 E2 : String → m Value) (argv : Record) :
    collectCliConfig E1 (some argv) = collectCliConfig E2 (some argv) ∧
    collectCliConfig E1 (some argv) = pure (collect (fun _ => .undefined) (some argv)) := by
  constructor
  · simp [collectCliConfig]
  · simp [collectCliConfig, collect, Id.run]

/-- Witness of C5 with a collaborator that logs its queries: run on the
explicit source `{cleanup: "0"}` from the empty log, the log stays empty. -/
theorem collect_source_exclusive_witness :
    (collectCliConfig loggingArgValue (some [("cleanup", .string "0")])).run []
      = ([("cleanup", .bool false)], []) := by
  rw [(collect_source_exclusive loggingArgValue loggingArgValue [("cleanup", .string "0")]).2]
  rfl

/-! ## The boolean coercer -/

/-- C6: for every string `s`, `asBoolean s` is `false` when `s` is exactly
`"false"`, `"0"` or the empty string and `true` for every other string; it
is never `undefined` for a string. -/
theorem asBoolean_string :
    (∀ s : String, (s = "false" ∨ s = "0" ∨ s = "") → asBoolean (.string s) = .bool false) ∧
    (∀ s : String, ¬ (s = "false" ∨ s = "0" ∨ s = "") → asBoolean (.string s) = .bool true) ∧
    (∀ s : String, asBoolean (.string s) ≠ .undefined) ∧
    asBoolean (.string "true") = .bool true ∧
    asBoolean (.string "anything") = .bool true ∧
    asBoolean (.string "yes") = .bool true ∧
    asBoolean (.string "no") = .bool true ∧
    asBoolean (.string "False") = .bool true ∧
    asBoolean (.string "00") = .bool true ∧
    asBoolean (.string " ") = .bool true := by
  refine ⟨?_, ?_, ?_, by decide, by decide, by decide, by decide, by decide, by decide,
    by decide⟩
  · rintro s (h | h | h) <;> subst h <;> decide
  · intro s h
    simp only [not_or] at h
    simp [asBoolean, neNull, strictNeString, h.1, h.2.1, h.2.2]
  · intro s
    simp [asBoolean, neNull]

/-- Witness of C6 at the strings `"0"` and `"no"`. -/
theorem asBoolean_string_witness :
    asBoolean (.string "0") = .bool false ∧ asBoolean (.string "no") = .bool true :=
  ⟨asBoolean_string.1 "0" (by decide), asBoolean_string.2.1 "no" (by decide)⟩

/-- C7 as stated fails: the native number `0` has the string form `"0"`, yet
`asBoolean 0` is `true`. -/
theorem asBoolean_number_zero :
    stringOf (.number JSNumber.zero) = some "0" ∧
    asBoolean (.number JSNumber.zero) = .bool true := by
  decide

/-- C7, amended: for every raw value `v` that is present and no native
boolean, `asBoolean v` is `false` if and only if `v` is itself one of the
strings `"false"`, `"0"` and `""` (the comparison is strict, no string form
is taken), and is `true` otherwise; every native number yields `true`. -/
theorem asBoolean_present (v : Value) (hu : v ≠ .undefined) (hn : v ≠ .null)
    (hb : ∀ b, v ≠ .bool b) :
    (asBoolean v = .bool false ↔ (v = .string "false" ∨ v = .string "0" ∨ v = .string "")) ∧
    (¬ (v = .string "false" ∨ v = .string "0" ∨ v = .string "") → asBoolean v = .bool true) ∧
    (∀ x, v = .number x → asBoolean v = .bool true) := by
  cases v with
  | undefined => exact absurd rfl hu
  | null => exact absurd rfl hn
  | bool b => exact absurd rfl (hb b)
  | number x => simp [asBoolean, neNull, strictNeString]
  | string s =>
    simp only [asBoolean, neNull, strictNeString, Value.string.injEq, if_true]
    by_cases h1 : s = "false" <;> by_cases h2 : s = "0" <;> by_cases h3 : s = "" <;>
      simp [h1, h2, h3]

/-- Witness of C7 (amended) at the native number `0`. -/
theorem asBoolean_present_witness :
    asBoolean (.number JSNumber.zero) = .bool true :=
  (asBoolean_present (.number JSNumber.zero) (by decide) (by decide) (by decide)).2.2
    JSNumber.zero rfl

/-- C8: `asBoolean` returns `undefined` if and only if its argument is
`undefined` or `null`; for every other raw value the result is one of the
native booleans `true` and `false`. -/
theorem asBoolean_undefined_iff (v : Value) :
    (asBoolean v = .undefined ↔ (v = .undefined ∨ v = .null)) ∧
    (¬ (v = .undefined ∨ v = .null) → asBoolean v = .bool true ∨ asBoolean v = .bool false) := by
  cases v with
  | undefined => simp [asBoolean, neNull]
  | null => simp [asBoolean, neNull]
  | bool b => cases b <;> simp [asBoolean]
  | number x => simp [asBoolean, neNull, strictNeString]
  | string s =>
    simp only [asBoolean, neNull, if_true]
    cases (strictNeString (Value.string s) "false" && strictNeString (Value.string s) "0" &&
      strictNeString (Value.string s) "") <;> simp

/-- Witness of C8 at the string `"0"`. -/
theorem asBoolean_undefined_iff_witness :
    asBoolean (.string "0") = .bool true ∨ asBoolean (.string "0") = .bool false :=
  (asBoolean_undefined_iff (.string "0")).2 (by decide)

/-! ## The number coercer -/

/-- C9: `asNumber` returns `undefined` if and only if its argument is
`undefined`, `null` or the empty string; for every other raw value (native
number, native boolean, non-empty string) the result is a Number, possibly
NaN. -/
theorem asNumber_undefined_iff (v : Value) :
    (asNumber v = .undefined ↔ (v = .undefined ∨ v = .null ∨ v = .string "")) ∧
    (¬ (v = .undefined ∨ v = .null ∨ v = .string "") → ∃ x, asNumber v = .number x) := by
  cases v with
  | undefined => simp [asNumber, neNull]
  | null => simp [asNumber, neNull]
  | bool b => simp [asNumber, neNull, strictNeString]
  | number x => simp [asNumber]
  | string s =>
    by_cases h : s = "" <;> simp [asNumber, neNull, strictNeString, h]

/-- Witness of C9 at the non-numeric string `"abc"`, which gives NaN. -/
theorem asNumber_undefined_iff_witness :
    ∃ x, asNumber (.string "abc") = .number x :=
  (asNumber_undefined_iff (.string "abc")).2 (by decide)

/-! ### Decimal numerals -/

theorem digitValue_digitChar : ∀ d, d < 10 → digitValue 10 (Nat.digitChar d) = some d := by
  decide

theorem isStrWhiteSpaceChar_digitChar :
    ∀ d, d < 10 → isStrWhiteSpaceChar (Nat.digitChar d) = false := by
  decide

theorem IsDecChar.digit {c : Char} (h : IsDecChar c) : isDigitOf 10 c = true := by
  obtain ⟨d, hd, rfl⟩ := h
  simp [isDigitOf, digitValue_digitChar d hd]

theorem IsDecChar.not_ws {c : Char} (h : IsDecChar c) : isStrWhiteSpaceChar c = false := by
  obtain ⟨d, hd, rfl⟩ := h
  exact isStrWhiteSpaceChar_digitChar d hd

theorem digitsMV_snoc (pre : List Char) (c : Char) :
    digitsMV 10 (pre ++ [c]) = 10 * digitsMV 10 pre + (digitValue 10 c).getD 0 := by
  simp [digitsMV, List.foldl_append]

theorem toDigitsCore_spec : ∀ (fuel n : Nat) (ds : List Char), n < fuel →
    ∃ pre, Nat.toDigitsCore 10 fuel n ds = pre ++ ds ∧ pre ≠ [] ∧
      (∀ c ∈ pre, IsDecChar c) ∧ digitsMV 10 pre = n := by
  intro fuel
  induction fuel with
  | zero => intro n ds h; omega
  | succ fuel ih =>
    intro n ds h
    have hmod : n % 10 < 10 := Nat.mod_lt _ (by decide)
    by_cases h0 : n / 10 = 0
    · refine ⟨[Nat.digitChar (n % 10)], ?_, by simp, ?_, ?_⟩
      · simp [Nat.toDigitsCore, h0]
      · intro c hc
        simp only [List.mem_singleton] at hc
        exact ⟨n % 10, hmod, hc⟩
      · have := digitsMV_snoc [] (Nat.digitChar (n % 10))
        simp only [List.nil_append] at this
        rw [this, digitValue_digitChar _ hmod]
        simp [digitsMV]
        omega
    · have hlt : n / 10 < fuel := by omega
      obtain ⟨pre, h1, h2, h3, h4⟩ := ih (n / 10) (Nat.digitChar (n % 10) :: ds) hlt
      refine ⟨pre ++ [Nat.digitChar (n % 10)], ?_, by simp, ?_, ?_⟩
      · simp [Nat.toDigitsCore, h0, h1]
      · intro c hc
        rcases List.mem_append.1 hc with hc | hc
        · exact h3 c hc
        · simp only [List.mem_singleton] at hc
          exact ⟨n % 10, hmod, hc⟩
      · rw [digitsMV_snoc, h4, digitValue_digitChar _ hmod]
        simp
        omega

theorem toDigits_spec (n : Nat) :
    Nat.toDigits 10 n ≠ [] ∧ (∀ c ∈ Nat.toDigits 10 n, IsDecChar c) ∧
      digitsMV 10 (Nat.toDigits 10 n) = n := by
  obtain ⟨pre, h1, h2, h3, h4⟩ := toDigitsCore_spec (n + 1) n [] (Nat.lt_succ_self n)
  simp only [List.append_nil] at h1
  rw [Nat.toDigits, h1]
  exact ⟨h2, h3, h4⟩

theorem dropWhile_eq_self {p : Char → Bool} (l : List Char) (h : ∀ c ∈ l, p c = false) :
    l.dropWhile p = l := by
  cases l with
  | nil => rfl
  | cons a t => simp [List.dropWhile, h a (List.mem_cons_self a t)]

theorem trimStrWhiteSpace_eq_self (l : List Char) (h : ∀ c ∈ l, isStrWhiteSpaceChar c = false) :
    trimStrWhiteSpace l = l := by
  unfold trimStrWhiteSpace
  rw [dropWhile_eq_self l h, dropWhile_eq_self l.reverse (by simpa using h), List.reverse_reverse]

theorem parseStrUnsignedDecimalLiteral_digits (ds : List Char) (hne : ds ≠ [])
    (hall : ∀ c ∈ ds, IsDecChar c) :
    parseStrUnsignedDecimalLiteral ds = some (roundMV (digitsMV 10 ds) 0) := by
  have hdig : ∀ c ∈ ds, isDigitOf 10 c = true := fun c hc => (hall c hc).digit
  have hinf : ds ≠ "Infinity".toList := by
    intro h
    have := hdig 'I' (by rw [h]; decide)
    exact absurd this (by decide)
  have htake : ds.takeWhile (isDigitOf 10) = ds := List.takeWhile_eq_self_iff.2 hdig
  have hdrop : ds.dropWhile (isDigitOf 10) = [] := List.dropWhile_eq_nil_iff.2 hdig
  unfold parseStrUnsignedDecimalLiteral
  rw [if_neg hinf]
  simp only [htake, hdrop]
  cases ds with
  | nil => exact absurd rfl hne
  | cons a t => simp [parseExponentPart]

theorem parseStrNumericLiteral_digits (ds : List Char) (hne : ds ≠ [])
    (hall : ∀ c ∈ ds, IsDecChar c) :
    parseStrNumericLiteral ds = some (roundMV (digitsMV 10 ds) 0) := by
  have hdig : ∀ c ∈ ds, isDigitOf 10 c = true := fun c hc => (hall c hc).digit
  have key : parseStrDecimalLiteral ds = some (roundMV (digitsMV 10 ds) 0) := by
    unfold parseStrDecimalLiteral
    split
    · exact absurd (hdig '+' (by simp)) (by decide)
    · exact absurd (hdig '-' (by simp)) (by decide)
    · exact parseStrUnsignedDecimalLiteral_digits ds hne hall
  unfold parseStrNumericLiteral
  split
  · exact absurd (hdig 'b' (by simp)) (by decide)
  · exact absurd (hdig 'B' (by simp)) (by decide)
  · exact absurd (hdig 'o' (by simp)) (by decide)
  · exact absurd (hdig 'O' (by simp)) (by decide)
  · exact absurd (hdig 'x' (by simp)) (by decide)
  · exact absurd (hdig 'X' (by simp)) (by decide)
  · exact key

theorem StringToNumber_repr (n : Nat) : StringToNumber (Nat.repr n) = roundMV n 0 := by
  obtain ⟨hne, hall, hmv⟩ := toDigits_spec n
  have hws : ∀ c ∈ Nat.toDigits 10 n, isStrWhiteSpaceChar c = false :=
    fun c hc => (hall c hc).not_ws
  unfold StringToNumber
  have hl : (Nat.repr n).toList = Nat.toDigits 10 n := rfl
  have he : (Nat.toDigits 10 n).isEmpty = false := by
    cases h : Nat.toDigits 10 n with
    | nil => exact absurd h hne
    | cons a t => rfl
  simp only [hl, trimStrWhiteSpace_eq_self _ hws, parseStrNumericLiteral_digits _ hne hall, hmv,
    he, Bool.false_eq_true, if_false]

theorem floorLog2Aux_spec : ∀ (fuel n : Nat), n ≤ fuel → n ≠ 0 →
    2 ^ floorLog2Aux fuel n ≤ n ∧ n < 2 ^ (floorLog2Aux fuel n + 1) := by
  intro fuel
  induction fuel with
  | zero => intro n h h0; omega
  | succ fuel ih =>
    intro n h h0
    unfold floorLog2Aux
    by_cases h2 : n < 2
    · simp only [h2, if_true]
      omega
    · simp only [h2, if_false]
      obtain ⟨h3, h4⟩ := ih (n / 2) (by omega) (by omega)
      constructor
      · rw [pow_succ]; omega
      · rw [pow_succ]; omega

theorem floorLog2_spec (n : Nat) (h0 : n ≠ 0) :
    2 ^ floorLog2 n ≤ n ∧ n < 2 ^ (floorLog2 n + 1) :=
  floorLog2Aux_spec n n (le_refl n) h0

theorem roundRatio_nat (n : Nat) (h0 : n ≠ 0) (h : n < 2 ^ 53) :
    roundRatio n 1 =
      .fin false (n * 2 ^ (52 - floorLog2 n)) ((floorLog2 n : Int) - 52) := by
  obtain ⟨h1, h2⟩ := floorLog2_spec n h0
  have ha : floorLog2 n ≤ 52 := by
    by_contra hc
    have : 2 ^ 53 ≤ 2 ^ floorLog2 n := Nat.pow_le_pow_right (by decide) (by omega)
    omega
  have hb : floorLog2 1 = 0 := by decide
  have hm : n * 2 ^ (52 - floorLog2 n) < 2 ^ 53 := by
    calc n * 2 ^ (52 - floorLog2 n) < 2 ^ (floorLog2 n + 1) * 2 ^ (52 - floorLog2 n) :=
          Nat.mul_lt_mul_of_pos_right h2 (Nat.pow_pos (by decide))
      _ = 2 ^ 53 := by rw [← pow_add]; congr 1; omega
  have he : max ((floorLog2 n : Int) - 0 - 52) (-1074) = (floorLog2 n : Int) - 52 := by omega
  have hneg : (-((floorLog2 n : Int) - 52)).toNat = 52 - floorLog2 n := by omega
  have hpos : ((floorLog2 n : Int) - 52).toNat = 0 := by omega
  unfold roundRatio
  simp only [if_neg h0, hb, pow_zero, mul_one, one_mul, h1, if_true, Nat.cast_zero, he, hneg,
    hpos, Nat.div_one, Nat.mod_one]
  have hne : ¬ (n * 2 ^ (52 - floorLog2 n) = 2 ^ 53) := by omega
  have hle : ¬ (971 < (floorLog2 n : Int) - 52) := by omega
  have hup : (decide (1 < 2 * 0) || decide (0 = 1) && decide (n * 2 ^ (52 - floorLog2 n) % 2 = 1)) = false := by
    simp
  simp only [hup, Bool.false_eq_true, if_false, if_neg hne, if_neg hle]

theorem roundMV_nat (n : Nat) (h : n < 2 ^ 53) :
    ∃ m e, roundMV n 0 = .fin false m e ∧ (JSNumber.fin false m e).toRat = some (n : ℚ) := by
  have hr : roundMV n 0 = roundRatio n 1 := by simp [roundMV]
  rw [hr]
  by_cases h0 : n = 0
  · subst h0
    exact ⟨0, -1074, rfl, by simp [JSNumber.toRat]⟩
  · refine ⟨_, _, roundRatio_nat n h0 h, ?_⟩
    obtain ⟨h1, h2⟩ := floorLog2_spec n h0
    have ha : floorLog2 n ≤ 52 := by
      by_contra hc
      have : 2 ^ 53 ≤ 2 ^ floorLog2 n := Nat.pow_le_pow_right (by decide) (by omega)
      omega
    simp only [JSNumber.toRat, Bool.false_eq_true, if_false, one_mul, Option.some.injEq]
    push_cast
    have h2ne : (2 : ℚ) ≠ 0 := by norm_num
    rw [mul_assoc, ← zpow_natCast, ← zpow_add₀ h2ne]
    have : ((52 - floorLog2 n : ℕ) : ℤ) + ((floorLog2 n : ℤ) - 52) = 0 := by omega
    rw [this, zpow_zero, mul_one]

/-- C10: for every non-negative integer `n` below `2^53`, `asNumber` of the
canonical decimal rendering of `n` is the Number whose exact value is `n`
(a non-negative one, so `"0"` gives `+0`); in particular `asNumber "42"` is
42, and `asNumber "3.5"` is 3.5. -/
theorem asNumber_decimal (n : Nat) (h : n < 2 ^ 53) :
    (∃ m e, asNumber (.string (Nat.repr n)) = .number (.fin false m e) ∧
        (JSNumber.fin false m e).toRat = some (n : ℚ)) ∧
    (asNumber (.string "42") = .number (.fin false (42 * 2 ^ 47) (-47)) ∧
        (JSNumber.fin false (42 * 2 ^ 47) (-47)).toRat = some 42) ∧
    (asNumber (.string "3.5") = .number (.fin false (7 * 2 ^ 50) (-51)) ∧
        (JSNumber.fin false (7 * 2 ^ 50) (-51)).toRat = some (7 / 2)) := by
  refine ⟨?_, ⟨by decide, by norm_num [JSNumber.toRat]⟩, ⟨by decide, by norm_num [JSNumber.toRat]⟩⟩
  obtain ⟨m, e, h1, h2⟩ := roundMV_nat n h
  refine ⟨m, e, ?_, h2⟩
  have hne : Nat.repr n ≠ "" := by
    intro hc
    have hl : (Nat.repr n).toList = Nat.toDigits 10 n := rfl
    rw [hc] at hl
    exact (toDigits_spec n).1 hl.symm
  simp [asNumber, neNull, strictNeString, hne, Number, StringToNumber_repr, h1]

/-- Witness of C10 at `n = 4503599627370497`, which is `2^52 + 1`. -/
theorem asNumber_decimal_witness :
    ∃ m e, asNumber (.string (Nat.repr 4503599627370497)) = .number (.fin false m e) ∧
      (JSNumber.fin false m e).toRat = some ((4503599627370497 : Nat) : ℚ) :=
  (asNumber_decimal 4503599627370497 (by decide)).1

/-! ### Numeric strings -/

theorem isDigitOf_ten (c : Char) : isDigitOf 10 c = isDecimalDigit c := by
  unfold isDigitOf digitValue isDecimalDigit
  generalize c.toNat = v
  by_cases h1 : 48 ≤ v <;> by_cases h2 : v ≤ 57 <;> by_cases h3 : 97 ≤ v <;>
    by_cases h4 : v ≤ 102 <;> by_cases h5 : 65 ≤ v <;> by_cases h6 : v ≤ 70 <;>
    simp [h1, h2, h3, h4, h5, h6] <;> omega

theorem isDigitOf_iff (b : Nat) (c : Char) :
    isDigitOf b c = true ↔
      ((48 ≤ c.toNat ∧ c.toNat ≤ 57 ∧ c.toNat - 48 < b) ∨
       (97 ≤ c.toNat ∧ c.toNat ≤ 102 ∧ c.toNat - 87 < b) ∨
       (65 ≤ c.toNat ∧ c.toNat ≤ 70 ∧ c.toNat - 55 < b)) := by
  unfold isDigitOf digitValue
  generalize c.toNat = v
  simp only [Bool.and_eq_true, decide_eq_true_eq]
  split_ifs with h1 h2 h3
  · by_cases hb : v - 48 < b
    · simp only [hb, if_true, Option.isSome]; simp; omega
    · simp only [hb, if_false, Option.isSome]; simp; omega
  · by_cases hb : v - 87 < b
    · simp only [hb, if_true, Option.isSome]; simp; omega
    · simp only [hb, if_false, Option.isSome]; simp; omega
  · by_cases hb : v - 55 < b
    · simp only [hb, if_true, Option.isSome]; simp; omega
    · simp only [hb, if_false, Option.isSome]; simp; omega
  · simp only [Option.isSome]; simp; omega

theorem isDigitOf_two (c : Char) : isDigitOf 2 c = isBinaryDigit c := by
  rw [Bool.eq_iff_iff, isDigitOf_iff]
  simp only [isBinaryDigit, decide_eq_true_eq]
  omega

theorem isDigitOf_eight (c : Char) : isDigitOf 8 c = isOctalDigit c := by
  rw [Bool.eq_iff_iff, isDigitOf_iff]
  simp only [isOctalDigit, decide_eq_true_eq]
  omega

theorem isDigitOf_sixteen (c : Char) : isDigitOf 16 c = isHexDigit c := by
  rw [Bool.eq_iff_iff, isDigitOf_iff]
  simp only [isHexDigit, decide_eq_true_eq]
  omega

theorem span_append {p : Char → Bool} (a b : List Char) (ha : ∀ c ∈ a, p c = true)
    (hb : ∀ h t, b = h :: t → p h = false) :
    (a ++ b).takeWhile p = a ∧ (a ++ b).dropWhile p = b := by
  induction a with
  | nil =>
    cases b with
    | nil => exact ⟨rfl, rfl⟩
    | cons h t =>
      have := hb h t rfl
      simp [List.takeWhile, List.dropWhile, this]
  | cons x a ih =>
    have hx := ha x (List.mem_cons_self _ _)
    obtain ⟨h1, h2⟩ := ih (fun c hc => ha c (List.mem_cons_of_mem _ hc))
    simp [List.takeWhile, List.dropWhile, hx, h1, h2]

/-- The digits test of the exponent parser. -/
theorem digits_ok_iff (ds : List Char) :
    (!ds.isEmpty && ds.all (isDigitOf 10)) = true ↔ IsDecimalDigits ds := by
  unfold IsDecimalDigits
  cases ds with
  | nil => simp
  | cons a t =>
    simp only [List.isEmpty_cons, Bool.not_false, Bool.true_and, List.all_eq_true, ne_eq,
      not_false_eq_true, true_and, reduceCtorEq]
    constructor
    · intro h c hc; rw [← isDigitOf_ten]; exact h c hc
    · intro h c hc; rw [isDigitOf_ten]; exact h c hc

theorem digits_cond_iff (ds : List Char) :
    (¬ds = [] ∧ ∀ x ∈ ds, isDigitOf 10 x = true) ↔ IsDecimalDigits ds := by
  unfold IsDecimalDigits
  simp only [isDigitOf_ten, ne_eq]

theorem not_digit_plus : isDecimalDigit '+' = false := by decide
theorem not_digit_minus : isDecimalDigit '-' = false := by decide
theorem not_digit_dot : isDecimalDigit '.' = false := by decide
theorem not_digit_e : isDecimalDigit 'e' = false := by decide
theorem not_digit_E : isDecimalDigit 'E' = false := by decide

theorem IsDecimalDigits.head {c : Char} {t : List Char} (h : IsDecimalDigits (c :: t)) :
    isDecimalDigit c = true := h.2 c (List.mem_cons_self _ _)

theorem isSignedInteger_plus (ds : List Char) :
    IsSignedInteger ('+' :: ds) ↔ IsDecimalDigits ds := by
  constructor
  · rintro (h | ⟨ds', (h | h), hd⟩)
    · exact absurd h.head (by decide)
    · cases h; exact hd
    · cases h
  · intro h; exact Or.inr ⟨ds, Or.inl rfl, h⟩

theorem isSignedInteger_minus (ds : List Char) :
    IsSignedInteger ('-' :: ds) ↔ IsDecimalDigits ds := by
  constructor
  · rintro (h | ⟨ds', (h | h), hd⟩)
    · exact absurd h.head (by decide)
    · cases h
    · cases h; exact hd
  · intro h; exact Or.inr ⟨ds, Or.inr rfl, h⟩

theorem isSignedInteger_other (t : List Char) (h1 : ∀ ds, t ≠ '+' :: ds)
    (h2 : ∀ ds, t ≠ '-' :: ds) : IsSignedInteger t ↔ IsDecimalDigits t := by
  constructor
  · rintro (h | ⟨ds', (h | h), _⟩)
    · exact h
    · exact absurd h (h1 ds')
    · exact absurd h (h2 ds')
  · intro h; exact Or.inl h

theorem parseExponentPart_e (t : List Char) :
    (parseExponentPart ('e' :: t)).isSome = true ↔ IsSignedInteger t := by
  simp only [parseExponentPart]
  split
  · rw [isSignedInteger_plus, ← digits_ok_iff]; split_ifs with h <;> simp [h]
  · rw [isSignedInteger_minus, ← digits_ok_iff]; split_ifs with h <;> simp [h]
  · rename_i h1 h2
    rw [isSignedInteger_other _ (fun ds hc => h1 ds hc) (fun ds hc => h2 ds hc), ← digits_ok_iff]
    split_ifs with h <;> simp [h]

theorem parseExponentPart_E (t : List Char) :
    (parseExponentPart ('E' :: t)).isSome = true ↔ IsSignedInteger t := by
  simp only [parseExponentPart]
  split
  · rw [isSignedInteger_plus, ← digits_ok_iff]; split_ifs with h <;> simp [h]
  · rw [isSignedInteger_minus, ← digits_ok_iff]; split_ifs with h <;> simp [h]
  · rename_i h1 h2
    rw [isSignedInteger_other _ (fun ds hc => h1 ds hc) (fun ds hc => h2 ds hc), ← digits_ok_iff]
    split_ifs with h <;> simp [h]

/-- The exponent parser accepts exactly the optional `ExponentPart`. -/
theorem parseExponentPart_isSome_iff (cs : List Char) :
    (parseExponentPart cs).isSome = true ↔ (cs = [] ∨ IsExponentPart cs) := by
  cases cs with
  | nil => simp [parseExponentPart]
  | cons c t =>
    by_cases he : c = 'e'
    · subst he
      rw [parseExponentPart_e]
      constructor
      · intro h; exact Or.inr ⟨t, Or.inl rfl, h⟩
      · rintro (h | ⟨t', (h | h), hs⟩)
        · cases h
        · cases h; exact hs
        · cases h
    · by_cases hE : c = 'E'
      · subst hE
        rw [parseExponentPart_E]
        constructor
        · intro h; exact Or.inr ⟨t, Or.inr rfl, h⟩
        · rintro (h | ⟨t', (h | h), hs⟩)
          · cases h
          · cases h
          · cases h; exact hs
      · have hnone : parseExponentPart (c :: t) = none := by
          unfold parseExponentPart
          split
          · rename_i heq; cases heq
          · rename_i heq; cases heq; exact absurd rfl he
          · rename_i heq; cases heq; exact absurd rfl hE
          · rfl
        rw [hnone]
        constructor
        · intro h; cases h
        · rintro (h | ⟨t', (h | h), _⟩)
          · cases h
          · cases h; exact absurd rfl he
          · cases h; exact absurd rfl hE

theorem IsDecimalDigits.all {ds : List Char} (h : IsDecimalDigits ds) :
    ∀ c ∈ ds, isDigitOf 10 c = true := fun c hc => by rw [isDigitOf_ten]; exact h.2 c hc

theorem IsDecimalDigits.isEmpty {ds : List Char} (h : IsDecimalDigits ds) :
    ds.isEmpty = false := by
  cases ds with
  | nil => exact absurd rfl h.1
  | cons a t => rfl

theorem isDecimalDigits_takeWhile (cs : List Char) (h : cs.takeWhile (isDigitOf 10) ≠ []) :
    IsDecimalDigits (cs.takeWhile (isDigitOf 10)) :=
  ⟨h, fun c hc => by rw [← isDigitOf_ten]; exact List.mem_takeWhile_imp hc⟩

/-- An optional exponent part does not begin with a decimal digit. -/
theorem optExponent_stop (ex : List Char) (h : ex = [] ∨ IsExponentPart ex) :
    ∀ c t, ex = c :: t → isDigitOf 10 c = false := by
  intro c t hc
  rcases h with h | ⟨t', (h | h), _⟩
  · rw [h] at hc; cases hc
  · rw [h] at hc; cases hc; decide
  · rw [h] at hc; cases hc; decide

/-- An optional exponent part does not begin with a dot. -/
theorem optExponent_no_dot (ex : List Char) (h : ex = [] ∨ IsExponentPart ex) :
    ∀ t, ex ≠ '.' :: t := by
  intro t hc
  rcases h with h | ⟨t', (h | h), _⟩
  · rw [h] at hc; cases hc
  · rw [h] at hc; cases hc
  · rw [h] at hc; cases hc

/-- The parser after the `Infinity` test, with the digit runs made explicit:
no dot after the integer part. -/
theorem parseUnsigned_no_dot (cs ip r1 : List Char) (hinf : cs ≠ "Infinity".toList)
    (hip : cs.takeWhile (isDigitOf 10) = ip) (hr1 : cs.dropWhile (isDigitOf 10) = r1)
    (hdot : ∀ t, r1 ≠ '.' :: t) :
    (parseStrUnsignedDecimalLiteral cs).isSome = true ↔
      ip ≠ [] ∧ (parseExponentPart r1).isSome = true := by
  unfold parseStrUnsignedDecimalLiteral
  rw [if_neg hinf]
  simp only [hip, hr1]
  cases hpe : parseExponentPart r1 <;> cases ip <;> simp

/-- The parser after the `Infinity` test, with the digit runs made explicit:
a dot after the integer part. -/
theorem parseUnsigned_dot (cs ip t : List Char) (hinf : cs ≠ "Infinity".toList)
    (hip : cs.takeWhile (isDigitOf 10) = ip) (hr1 : cs.dropWhile (isDigitOf 10) = '.' :: t) :
    (parseStrUnsignedDecimalLiteral cs).isSome = true ↔
      ¬ (ip = [] ∧ t.takeWhile (isDigitOf 10) = []) ∧
        (parseExponentPart (t.dropWhile (isDigitOf 10))).isSome = true := by
  unfold parseStrUnsignedDecimalLiteral
  rw [if_neg hinf]
  simp only [hip, hr1]
  cases hpe : parseExponentPart (t.dropWhile (isDigitOf 10)) <;> cases ip <;>
    cases t.takeWhile (isDigitOf 10) <;> simp

theorem digits_append_ne_infinity (ip rest : List Char) (h : IsDecimalDigits ip) :
    ip ++ rest ≠ "Infinity".toList := by
  intro hc
  cases ip with
  | nil => exact h.1 rfl
  | cons c t =>
    have hd := h.head
    have : c = 'I' := by
      have := congrArg List.head? hc
      simpa using this
    rw [this] at hd
    exact absurd hd (by decide)

theorem parseUnsigned_sound (cs : List Char)
    (h : (parseStrUnsignedDecimalLiteral cs).isSome = true) : IsStrUnsignedDecimalLiteral cs := by
  by_cases hinf : cs = "Infinity".toList
  · exact Or.inl hinf
  · have hsplit : cs = cs.takeWhile (isDigitOf 10) ++ cs.dropWhile (isDigitOf 10) :=
      (List.takeWhile_append_dropWhile _ _).symm
    have hnodot : ∀ r1, cs.dropWhile (isDigitOf 10) = r1 → (∀ t, r1 ≠ '.' :: t) →
        IsStrUnsignedDecimalLiteral cs := by
      intro r1 hr1 hdot
      obtain ⟨h1, h2⟩ := (parseUnsigned_no_dot cs _ r1 hinf rfl hr1 hdot).1 h
      refine Or.inr (Or.inr (Or.inr ⟨_, r1, ?_, isDecimalDigits_takeWhile cs h1,
        (parseExponentPart_isSome_iff r1).1 h2⟩))
      rw [← hr1]; exact hsplit
    cases hr : cs.dropWhile (isDigitOf 10) with
    | nil => exact hnodot [] hr (fun t hc => by cases hc)
    | cons c t =>
      by_cases hc : c = '.'
      · subst hc
        obtain ⟨h1, h2⟩ := (parseUnsigned_dot cs _ t hinf rfl hr).1 h
        have hex := (parseExponentPart_isSome_iff _).1 h2
        have ht : t = t.takeWhile (isDigitOf 10) ++ t.dropWhile (isDigitOf 10) :=
          (List.takeWhile_append_dropWhile _ _).symm
        have hcs : cs = cs.takeWhile (isDigitOf 10) ++
            '.' :: (t.takeWhile (isDigitOf 10) ++ t.dropWhile (isDigitOf 10)) := by
          rw [← ht, ← hr]; exact hsplit
        by_cases hip : cs.takeWhile (isDigitOf 10) = []
        · have hfp : t.takeWhile (isDigitOf 10) ≠ [] := fun hf => h1 ⟨hip, hf⟩
          refine Or.inr (Or.inr (Or.inl ⟨_, _, ?_, isDecimalDigits_takeWhile t hfp, hex⟩))
          rw [hip] at hcs
          exact hcs
        · refine Or.inr (Or.inl ⟨_, _, _, hcs, isDecimalDigits_takeWhile cs hip, ?_, hex⟩)
          by_cases hfp : t.takeWhile (isDigitOf 10) = []
          · exact Or.inl hfp
          · exact Or.inr (isDecimalDigits_takeWhile t hfp)
      · exact hnodot (c :: t) hr (fun t' hc' => by cases hc'; exact hc rfl)

theorem parseUnsigned_complete (cs : List Char) (h : IsStrUnsignedDecimalLiteral cs) :
    (parseStrUnsignedDecimalLiteral cs).isSome = true := by
  rcases h with h | ⟨ip, fp, ex, hcs, hip, hfp, hex⟩ | ⟨fp, ex, hcs, hfp, hex⟩ |
    ⟨ip, ex, hcs, hip, hex⟩
  · subst h; decide
  · have hinf : cs ≠ "Infinity".toList := hcs ▸ digits_append_ne_infinity ip _ hip
    obtain ⟨h1, h2⟩ := span_append (p := isDigitOf 10) ip ('.' :: (fp ++ ex)) hip.all
      (fun c t hc => by cases hc; decide)
    have hfpall : ∀ c ∈ fp, isDigitOf 10 c = true := by
      rcases hfp with hfp | hfp
      · subst hfp; intro c hc; cases hc
      · exact hfp.all
    obtain ⟨h3, h4⟩ := span_append (p := isDigitOf 10) fp ex hfpall (optExponent_stop ex hex)
    rw [← hcs] at h1 h2
    rw [parseUnsigned_dot cs ip (fp ++ ex) hinf h1 h2, h3, h4]
    exact ⟨fun hc => hip.1 hc.1, (parseExponentPart_isSome_iff ex).2 hex⟩
  · have hinf : cs ≠ "Infinity".toList := by rw [hcs]; intro hc; cases hc
    have h1 : cs.takeWhile (isDigitOf 10) = [] := by
      rw [hcs]; simp [List.takeWhile, show isDigitOf 10 '.' = false by decide]
    have h2 : cs.dropWhile (isDigitOf 10) = '.' :: (fp ++ ex) := by
      rw [hcs]; simp [List.dropWhile, show isDigitOf 10 '.' = false by decide]
    obtain ⟨h3, h4⟩ := span_append (p := isDigitOf 10) fp ex hfp.all (optExponent_stop ex hex)
    rw [parseUnsigned_dot cs [] (fp ++ ex) hinf h1 h2, h3, h4]
    exact ⟨fun hc => hfp.1 hc.2, (parseExponentPart_isSome_iff ex).2 hex⟩
  · have hinf : cs ≠ "Infinity".toList := hcs ▸ digits_append_ne_infinity ip _ hip
    obtain ⟨h1, h2⟩ := span_append (p := isDigitOf 10) ip ex hip.all (optExponent_stop ex hex)
    rw [← hcs] at h1 h2
    rw [parseUnsigned_no_dot cs ip ex hinf h1 h2 (optExponent_no_dot ex hex)]
    exact ⟨hip.1, (parseExponentPart_isSome_iff ex).2 hex⟩

theorem parseUnsigned_isSome_iff (cs : List Char) :
    (parseStrUnsignedDecimalLiteral cs).isSome = true ↔ IsStrUnsignedDecimalLiteral cs :=
  ⟨parseUnsigned_sound cs, parseUnsigned_complete cs⟩

/-- An unsigned decimal literal begins with a digit, a dot or `I`. -/
theorem unsigned_head (c : Char) (t : List Char) (h : IsStrUnsignedDecimalLiteral (c :: t)) :
    isDecimalDigit c = true ∨ c = '.' ∨ c = 'I' := by
  rcases h with h | ⟨ip, fp, ex, hcs, hip, -, -⟩ | ⟨fp, ex, hcs, -, -⟩ | ⟨ip, ex, hcs, hip, -⟩
  · cases h; exact Or.inr (Or.inr rfl)
  · cases ip with
    | nil => exact absurd rfl hip.1
    | cons a ip' => cases hcs; exact Or.inl hip.head
  · cases hcs; exact Or.inr (Or.inl rfl)
  · cases ip with
    | nil => exact absurd rfl hip.1
    | cons a ip' => cases hcs; exact Or.inl hip.head

theorem isSome_map_neg (x : Option JSNumber) : (x.map JSNumber.neg).isSome = x.isSome := by
  cases x <;> rfl

theorem parseDecimal_isSome_iff (cs : List Char) :
    (parseStrDecimalLiteral cs).isSome = true ↔ IsStrDecimalLiteral cs := by
  unfold parseStrDecimalLiteral IsStrDecimalLiteral
  split
  · rename_i t
    rw [parseUnsigned_isSome_iff]
    constructor
    · intro h; exact Or.inr ⟨t, Or.inl rfl, h⟩
    · rintro (h | ⟨t', (h | h), hu⟩)
      · rcases unsigned_head _ _ h with h | h | h
        · exact absurd h (by decide)
        · exact absurd h (by decide)
        · exact absurd h (by decide)
      · cases h; exact hu
      · cases h
  · rename_i t
    rw [isSome_map_neg, parseUnsigned_isSome_iff]
    constructor
    · intro h; exact Or.inr ⟨t, Or.inr rfl, h⟩
    · rintro (h | ⟨t', (h | h), hu⟩)
      · rcases unsigned_head _ _ h with h | h | h
        · exact absurd h (by decide)
        · exact absurd h (by decide)
        · exact absurd h (by decide)
      · cases h
      · cases h; exact hu
  · rename_i h1 h2
    rw [parseUnsigned_isSome_iff]
    constructor
    · intro h; exact Or.inl h
    · rintro (h | ⟨t', (h | h), _⟩)
      · exact h
      · exact absurd h (h1 t')
      · exact absurd h (h2 t')

/-- After a leading `0`, a decimal literal goes on with a digit, a dot or
an exponent indicator. -/
theorem decimal_second (c : Char) (t : List Char) (h : IsStrDecimalLiteral ('0' :: c :: t)) :
    isDecimalDigit c = true ∨ c = '.' ∨ c = 'e' ∨ c = 'E' := by
  rcases h with (h | ⟨ip, fp, ex, hcs, hip, -, -⟩ | ⟨fp, ex, hcs, -, -⟩ | ⟨ip, ex, hcs, hip, hex⟩) |
    ⟨t', (h | h), _⟩
  · cases h
  · cases ip with
    | nil => exact absurd rfl hip.1
    | cons a ip' =>
      cases ip' with
      | nil => cases hcs; exact Or.inr (Or.inl rfl)
      | cons b ip2 =>
        cases hcs
        exact Or.inl (hip.2 _ (List.mem_cons_of_mem _ (List.mem_cons_self _ _)))
  · cases hcs
  · cases ip with
    | nil => exact absurd rfl hip.1
    | cons a ip' =>
      cases ip' with
      | nil =>
        rcases hex with hex | ⟨t', (hex | hex), _⟩
        · subst hex; cases hcs
        · subst hex; cases hcs; exact Or.inr (Or.inr (Or.inl rfl))
        · subst hex; cases hcs; exact Or.inr (Or.inr (Or.inr rfl))
      | cons b ip2 =>
        cases hcs
        exact Or.inl (hip.2 _ (List.mem_cons_of_mem _ (List.mem_cons_self _ _)))
  · cases h
  · cases h

theorem parseNonDecimal_isSome_iff (base : Nat) (ds : List Char) :
    (parseNonDecimal base ds).isSome = true ↔ ds ≠ [] ∧ ∀ c ∈ ds, isDigitOf base c = true := by
  unfold parseNonDecimal
  cases ds with
  | nil => simp
  | cons a t =>
    by_cases h : (a :: t).all (isDigitOf base) = true
    · simp only [List.isEmpty_cons, Bool.not_false, Bool.true_and, h, if_true, Option.isSome_some,
        ne_eq, reduceCtorEq, not_false_eq_true, true_and, true_iff]
      exact List.all_eq_true.1 h
    · simp only [List.isEmpty_cons, Bool.not_false, Bool.true_and, h, if_false,
        Option.isSome_none, ne_eq, reduceCtorEq, not_false_eq_true, true_and,
        Bool.false_eq_true, false_iff]
      intro hc; exact h (List.all_eq_true.2 hc)

theorem nonDecimal_of_parse (base : Nat) (t : List Char) (q : Char → Bool)
    (hq : ∀ c, isDigitOf base c = q c)
    (h : (parseNonDecimal base t).isSome = true) :
    t ≠ [] ∧ ∀ c ∈ t, q c = true := by
  obtain ⟨h1, h2⟩ := (parseNonDecimal_isSome_iff base t).1 h
  exact ⟨h1, fun c hc => hq c ▸ h2 c hc⟩

theorem parseNumeric_sound (cs : List Char) (h : (parseStrNumericLiteral cs).isSome = true) :
    IsStrNumericLiteral cs := by
  unfold parseStrNumericLiteral at h
  split at h
  · obtain ⟨h1, h2⟩ := nonDecimal_of_parse 2 _ isBinaryDigit isDigitOf_two h
    exact Or.inr ⟨_, h1, Or.inl ⟨Or.inl rfl, h2⟩⟩
  · obtain ⟨h1, h2⟩ := nonDecimal_of_parse 2 _ isBinaryDigit isDigitOf_two h
    exact Or.inr ⟨_, h1, Or.inl ⟨Or.inr rfl, h2⟩⟩
  · obtain ⟨h1, h2⟩ := nonDecimal_of_parse 8 _ isOctalDigit isDigitOf_eight h
    exact Or.inr ⟨_, h1, Or.inr (Or.inl ⟨Or.inl rfl, h2⟩)⟩
  · obtain ⟨h1, h2⟩ := nonDecimal_of_parse 8 _ isOctalDigit isDigitOf_eight h
    exact Or.inr ⟨_, h1, Or.inr (Or.inl ⟨Or.inr rfl, h2⟩)⟩
  · obtain ⟨h1, h2⟩ := nonDecimal_of_parse 16 _ isHexDigit isDigitOf_sixteen h
    exact Or.inr ⟨_, h1, Or.inr (Or.inr ⟨Or.inl rfl, h2⟩)⟩
  · obtain ⟨h1, h2⟩ := nonDecimal_of_parse 16 _ isHexDigit isDigitOf_sixteen h
    exact Or.inr ⟨_, h1, Or.inr (Or.inr ⟨Or.inr rfl, h2⟩)⟩
  · exact Or.inl ((parseDecimal_isSome_iff cs).1 h)

theorem not_decimal_second (c : Char) (t : List Char) (h1 : isDecimalDigit c = false)
    (h2 : c ≠ '.') (h3 : c ≠ 'e') (h4 : c ≠ 'E') : ¬ IsStrDecimalLiteral ('0' :: c :: t) := by
  intro h
  rcases decimal_second c t h with h | h | h | h
  · rw [h1] at h; cases h
  · exact h2 h
  · exact h3 h
  · exact h4 h

theorem parseNumeric_complete (cs : List Char) (h : IsStrNumericLiteral cs) :
    (parseStrNumericLiteral cs).isSome = true := by
  rcases h with h | ⟨ds, hne, h⟩
  · unfold parseStrNumericLiteral
    split
    · exact absurd h (not_decimal_second 'b' _ (by decide) (by decide) (by decide) (by decide))
    · exact absurd h (not_decimal_second 'B' _ (by decide) (by decide) (by decide) (by decide))
    · exact absurd h (not_decimal_second 'o' _ (by decide) (by decide) (by decide) (by decide))
    · exact absurd h (not_decimal_second 'O' _ (by decide) (by decide) (by decide) (by decide))
    · exact absurd h (not_decimal_second 'x' _ (by decide) (by decide) (by decide) (by decide))
    · exact absurd h (not_decimal_second 'X' _ (by decide) (by decide) (by decide) (by decide))
    · exact (parseDecimal_isSome_iff cs).2 h
  · rcases h with ⟨(h | h), hd⟩ | ⟨(h | h), hd⟩ | ⟨(h | h), hd⟩ <;> subst h <;>
      simp only [parseStrNumericLiteral] <;>
      refine (parseNonDecimal_isSome_iff _ ds).2 ⟨hne, fun c hc => ?_⟩
    · rw [isDigitOf_two]; exact hd c hc
    · rw [isDigitOf_two]; exact hd c hc
    · rw [isDigitOf_eight]; exact hd c hc
    · rw [isDigitOf_eight]; exact hd c hc
    · rw [isDigitOf_sixteen]; exact hd c hc
    · rw [isDigitOf_sixteen]; exact hd c hc

/-- The parser accepts exactly the strings of `StrNumericLiteral`. -/
theorem parseNumeric_isSome_iff (cs : List Char) :
    (parseStrNumericLiteral cs).isSome = true ↔ IsStrNumericLiteral cs :=
  ⟨parseNumeric_sound cs, parseNumeric_complete cs⟩

theorem roundRatio_ne_nan (n d : Nat) : roundRatio n d ≠ .nan := by
  unfold roundRatio
  simp only []
  split_ifs <;> simp [JSNumber.zero]

theorem roundMV_ne_nan (n : Nat) (x : Int) : roundMV n x ≠ .nan := roundRatio_ne_nan _ _

theorem neg_ne_nan (x : JSNumber) (h : x ≠ .nan) : x.neg ≠ .nan := by
  cases x <;> simp_all [JSNumber.neg]

theorem parseUnsigned_ne_nan (cs : List Char) (x : JSNumber)
    (h : parseStrUnsignedDecimalLiteral cs = some x) : x ≠ .nan := by
  unfold parseStrUnsignedDecimalLiteral at h
  simp only [] at h
  split_ifs at h
  · cases h; simp
  · split at h
    · cases h
    · cases h; exact roundMV_ne_nan _ _

theorem parseDecimal_ne_nan (cs : List Char) (x : JSNumber)
    (h : parseStrDecimalLiteral cs = some x) : x ≠ .nan := by
  unfold parseStrDecimalLiteral at h
  split at h
  · exact parseUnsigned_ne_nan _ x h
  · rename_i t
    cases hp : parseStrUnsignedDecimalLiteral t with
    | none => rw [hp] at h; cases h
    | some y =>
      rw [hp] at h
      cases h
      exact neg_ne_nan y (parseUnsigned_ne_nan _ y hp)
  · exact parseUnsigned_ne_nan _ x h

theorem parseNonDecimal_ne_nan (base : Nat) (ds : List Char) (x : JSNumber)
    (h : parseNonDecimal base ds = some x) : x ≠ .nan := by
  unfold parseNonDecimal at h
  split_ifs at h
  cases h
  exact roundMV_ne_nan _ _

theorem parseNumeric_ne_nan (cs : List Char) (x : JSNumber)
    (h : parseStrNumericLiteral cs = some x) : x ≠ .nan := by
  unfold parseStrNumericLiteral at h
  split at h
  · exact parseNonDecimal_ne_nan _ _ x h
  · exact parseNonDecimal_ne_nan _ _ x h
  · exact parseNonDecimal_ne_nan _ _ x h
  · exact parseNonDecimal_ne_nan _ _ x h
  · exact parseNonDecimal_ne_nan _ _ x h
  · exact parseNonDecimal_ne_nan _ _ x h
  · exact parseDecimal_ne_nan _ x h

theorem trim_decompose (cs : List Char) :
    ∃ w1 w2, cs = w1 ++ trimStrWhiteSpace cs ++ w2 ∧
      (∀ c ∈ w1, isStrWhiteSpaceChar c = true) ∧ (∀ c ∈ w2, isStrWhiteSpaceChar c = true) := by
  refine ⟨cs.takeWhile isStrWhiteSpaceChar,
    ((cs.dropWhile isStrWhiteSpaceChar).reverse.takeWhile isStrWhiteSpaceChar).reverse, ?_,
    fun c hc => List.mem_takeWhile_imp hc,
    fun c hc => List.mem_takeWhile_imp (List.mem_reverse.1 hc)⟩
  unfold trimStrWhiteSpace
  rw [List.append_assoc, ← List.reverse_append, List.takeWhile_append_dropWhile,
    List.reverse_reverse, List.takeWhile_append_dropWhile]

theorem trim_all_ws (cs : List Char) (h : ∀ c ∈ cs, isStrWhiteSpaceChar c = true) :
    trimStrWhiteSpace cs = [] := by
  unfold trimStrWhiteSpace
  rw [List.dropWhile_eq_nil_iff.2 h]
  rfl

theorem trim_of_decomposition (w1 body w2 : List Char)
    (h1 : ∀ c ∈ w1, isStrWhiteSpaceChar c = true) (h2 : ∀ c ∈ w2, isStrWhiteSpaceChar c = true)
    (hne : body ≠ []) (hb : ∀ c ∈ body, isStrWhiteSpaceChar c = false) :
    trimStrWhiteSpace (w1 ++ body ++ w2) = body := by
  unfold trimStrWhiteSpace
  have hd : (w1 ++ body ++ w2).dropWhile isStrWhiteSpaceChar = body ++ w2 := by
    rw [List.append_assoc]
    refine (span_append w1 (body ++ w2) h1 ?_).2
    intro c t hc
    cases body with
    | nil => exact absurd rfl hne
    | cons a b => cases hc; exact hb _ (List.mem_cons_self _ _)
  rw [hd, List.reverse_append]
  have hr : (w2.reverse ++ body.reverse).dropWhile isStrWhiteSpaceChar = body.reverse := by
    refine (span_append w2.reverse body.reverse (fun c hc => h2 c (List.mem_reverse.1 hc)) ?_).2
    intro c t hc
    apply hb
    rw [← List.mem_reverse, hc]
    exact List.mem_cons_self _ _
  rw [hr, List.reverse_reverse]

theorem not_ws_of_printable (c : Char) (h : 33 ≤ c.toNat ∧ c.toNat ≤ 126) :
    isStrWhiteSpaceChar c = false := by
  unfold isStrWhiteSpaceChar
  simp only [Bool.or_eq_false_iff, Bool.and_eq_false_iff, decide_eq_false_iff_not]
  omega

theorem digits_printable (ds : List Char) (h : IsDecimalDigits ds) :
    ∀ c ∈ ds, 33 ≤ c.toNat ∧ c.toNat ≤ 126 := by
  intro c hc
  have := h.2 c hc
  simp only [isDecimalDigit, decide_eq_true_eq] at this
  omega

theorem optExponent_printable (ex : List Char) (h : ex = [] ∨ IsExponentPart ex) :
    ∀ c ∈ ex, 33 ≤ c.toNat ∧ c.toNat ≤ 126 := by
  intro c hc
  rcases h with h | ⟨t, ht, hs⟩
  · subst h; cases hc
  · have hsig : ∀ x ∈ t, 33 ≤ x.toNat ∧ x.toNat ≤ 126 := by
      intro x hx
      rcases hs with hs | ⟨ds, (hs | hs), hd⟩
      · exact digits_printable t hs x hx
      · subst hs
        rcases List.mem_cons.1 hx with hx | hx
        · subst hx; decide
        · exact digits_printable ds hd x hx
      · subst hs
        rcases List.mem_cons.1 hx with hx | hx
        · subst hx; decide
        · exact digits_printable ds hd x hx
    rcases ht with ht | ht <;> subst ht <;> rcases List.mem_cons.1 hc with hc | hc
    · subst hc; decide
    · exact hsig c hc
    · subst hc; decide
    · exact hsig c hc

theorem unsigned_printable (cs : List Char) (h : IsStrUnsignedDecimalLiteral cs) :
    ∀ c ∈ cs, 33 ≤ c.toNat ∧ c.toNat ≤ 126 := by
  have hopt : ∀ fp : List Char, (fp = [] ∨ IsDecimalDigits fp) →
      ∀ c ∈ fp, 33 ≤ c.toNat ∧ c.toNat ≤ 126 := by
    rintro fp (h | h) c hc
    · subst h; cases hc
    · exact digits_printable fp h c hc
  rcases h with h | ⟨ip, fp, ex, hcs, hip, hfp, hex⟩ | ⟨fp, ex, hcs, hfp, hex⟩ |
    ⟨ip, ex, hcs, hip, hex⟩
  · subst h; decide
  · subst hcs
    intro c hc
    simp only [List.mem_append, List.mem_cons] at hc
    rcases hc with hc | hc | hc | hc
    · exact digits_printable ip hip c hc
    · subst hc; decide
    · exact hopt fp hfp c hc
    · exact optExponent_printable ex hex c hc
  · subst hcs
    intro c hc
    simp only [List.mem_append, List.mem_cons] at hc
    rcases hc with hc | hc | hc
    · subst hc; decide
    · exact digits_printable fp hfp c hc
    · exact optExponent_printable ex hex c hc
  · subst hcs
    intro c hc
    simp only [List.mem_append] at hc
    rcases hc with hc | hc
    · exact digits_printable ip hip c hc
    · exact optExponent_printable ex hex c hc

theorem numeric_printable (cs : List Char) (h : IsStrNumericLiteral cs) :
    ∀ c ∈ cs, 33 ≤ c.toNat ∧ c.toNat ≤ 126 := by
  rcases h with (h | ⟨t, (h | h), hu⟩) | ⟨ds, -, h⟩
  · exact unsigned_printable cs h
  · subst h
    intro c hc
    rcases List.mem_cons.1 hc with hc | hc
    · subst hc; decide
    · exact unsigned_printable t hu c hc
  · subst h
    intro c hc
    rcases List.mem_cons.1 hc with hc | hc
    · subst hc; decide
    · exact unsigned_printable t hu c hc
  · have hbin : ∀ c, isBinaryDigit c = true → 33 ≤ c.toNat ∧ c.toNat ≤ 126 := by
      intro c hc; simp only [isBinaryDigit, decide_eq_true_eq] at hc; omega
    have hoct : ∀ c, isOctalDigit c = true → 33 ≤ c.toNat ∧ c.toNat ≤ 126 := by
      intro c hc; simp only [isOctalDigit, decide_eq_true_eq] at hc; omega
    have hhex : ∀ c, isHexDigit c = true → 33 ≤ c.toNat ∧ c.toNat ≤ 126 := by
      intro c hc; simp only [isHexDigit, decide_eq_true_eq] at hc; omega
    intro c hc
    rcases h with ⟨(h | h), hd⟩ | ⟨(h | h), hd⟩ | ⟨(h | h), hd⟩ <;> subst h <;>
      simp only [List.mem_cons] at hc <;> rcases hc with hc | hc | hc
    all_goals first
      | (subst hc; decide)
      | exact hbin c (hd c hc)
      | exact hoct c (hd c hc)
      | exact hhex c (hd c hc)

theorem numeric_ne_nil (cs : List Char) (h : IsStrNumericLiteral cs) : cs ≠ [] := by
  intro hc
  subst hc
  have := parseNumeric_complete [] h
  exact absurd this (by decide)

/-- `StringToNumber` is NaN exactly on the strings that are no
`StringNumericLiteral`. -/
theorem StringToNumber_eq_nan_iff (s : String) :
    StringToNumber s = .nan ↔ ¬ IsStringNumericLiteral s := by
  constructor
  · rintro h ⟨w1, body, w2, hs, h1, h2, hb⟩
    unfold StringToNumber at h
    simp only [hs] at h
    rcases hb with hb | hb
    · subst hb
      rw [List.append_nil, trim_all_ws (w1 ++ w2)] at h
      · exact absurd h (by decide)
      · intro c hc
        rcases List.mem_append.1 hc with hc | hc
        · exact h1 c hc
        · exact h2 c hc
    · rw [trim_of_decomposition w1 body w2 h1 h2 (numeric_ne_nil body hb)
        (fun c hc => not_ws_of_printable c (numeric_printable body hb c hc))] at h
      have hsome := parseNumeric_complete body hb
      cases hp : parseStrNumericLiteral body with
      | none => rw [hp] at hsome; cases hsome
      | some x =>
        rw [hp] at h
        have hx := parseNumeric_ne_nan body x hp
        cases hbe : body.isEmpty <;> simp only [hbe, if_true, Bool.false_eq_true, if_false] at h
        · exact hx h
        · exact absurd h (by decide)
  · intro h
    by_contra hne
    apply h
    obtain ⟨w1, w2, hs, h1, h2⟩ := trim_decompose s.toList
    refine ⟨w1, trimStrWhiteSpace s.toList, w2, hs, h1, h2, ?_⟩
    unfold StringToNumber at hne
    simp only [] at hne
    by_cases he : trimStrWhiteSpace s.toList = []
    · exact Or.inl he
    · right
      apply parseNumeric_sound
      cases hp : parseStrNumericLiteral (trimStrWhiteSpace s.toList) with
      | some x => rfl
      | none =>
        exfalso
        apply hne
        have hbe : (trimStrWhiteSpace s.toList).isEmpty = false := by
          cases hl : trimStrWhiteSpace s.toList with
          | nil => exact absurd hl he
          | cons a t => rfl
        simp only [hp, hbe, Bool.false_eq_true, if_false]

/-- A `StringNumericLiteral` is white space alone or denotes a number. -/
theorem isStringNumericLiteral_iff (s : String) :
    IsStringNumericLiteral s ↔ IsWhiteSpace s ∨ DenotesNumber s := by
  constructor
  · rintro ⟨w1, body, w2, hs, h1, h2, hb | hb⟩
    · left
      intro c hc
      rw [hs, hb, List.append_nil] at hc
      rcases List.mem_append.1 hc with hc | hc
      · exact h1 c hc
      · exact h2 c hc
    · exact Or.inr ⟨w1, body, w2, hs, h1, h2, hb⟩
  · rintro (h | ⟨w1, body, w2, hs, h1, h2, hb⟩)
    · exact ⟨s.toList, [], [], by simp, h, (fun c hc => by cases hc), Or.inl rfl⟩
    · exact ⟨w1, body, w2, hs, h1, h2, Or.inr hb⟩

/-- A string that denotes a number is not white space alone. -/
theorem DenotesNumber.not_whiteSpace {s : String} (h : DenotesNumber s) : ¬ IsWhiteSpace s := by
  obtain ⟨w1, body, w2, hs, -, -, hb⟩ := h
  intro hw
  cases hbody : body with
  | nil => exact numeric_ne_nil body hb hbody
  | cons c t =>
    have hc : c ∈ body := by rw [hbody]; exact List.mem_cons_self _ _
    have hmem : c ∈ s.toList := by
      rw [hs]; exact List.mem_append_left _ (List.mem_append_right _ hc)
    have h1 := hw c hmem
    rw [not_ws_of_printable c (numeric_printable body hb c hc)] at h1
    cases h1

/-- `StringToNumber` of white space alone is `+0`. -/
theorem StringToNumber_whiteSpace (s : String) (h : IsWhiteSpace s) :
    StringToNumber s = JSNumber.zero := by
  unfold StringToNumber
  simp only [trim_all_ws s.toList h, List.isEmpty_nil, if_true]

/-- C11 as stated fails: the string `" "` is not empty and denotes no number
(it holds no numeric literal), yet `asNumber " "` is the Number `+0` and not
NaN. -/
theorem asNumber_blank :
    (" " : String) ≠ "" ∧ ¬ DenotesNumber " " ∧
    asNumber (.string " ") = .number JSNumber.zero ∧
    asNumber (.string " ") ≠ .number .nan :=
  ⟨by decide, fun h => h.not_whiteSpace (by unfold IsWhiteSpace; decide), by decide, by decide⟩

/-- C11, amended: for every non-empty string `s` that denotes no number and
is not white space alone, `asNumber s` is the Number NaN (a value, not
`undefined`), and only for such strings; a non-empty string of white space
alone gives `+0`; so for every explicit source that holds a string of the
first kind under `workers` the output has the field `workers` with value
NaN, as for the source `{workers: "abc"}`. -/
theorem asNumber_non_numeric (s : String) (hne : s ≠ "") :
    (¬ DenotesNumber s → ¬ IsWhiteSpace s → asNumber (.string s) = .number .nan) ∧
    (IsWhiteSpace s → asNumber (.string s) = .number JSNumber.zero) ∧
    (asNumber (.string s) = .number .nan → ¬ DenotesNumber s ∧ ¬ IsWhiteSpace s) ∧
    (¬ DenotesNumber s → ¬ IsWhiteSpace s → ∀ (L : String → Value) (argv : Record),
      getProperty argv "workers" = .string s →
        (("workers", Value.number .nan) : String × Value) ∈ collect L (some argv)) ∧
    (¬ DenotesNumber "abc" ∧ ¬ IsWhiteSpace "abc") ∧
    asNumber (.string "abc") = .number .nan ∧
    (∀ L : String → Value,
      collect L (some [("workers", .string "abc")]) = [("workers", .number .nan)]) := by
  have hval : asNumber (.string s) = .number (StringToNumber s) := by
    simp [asNumber, neNull, strictNeString, hne, Number]
  have hiff : asNumber (.string s) = .number .nan ↔ ¬ IsStringNumericLiteral s := by
    rw [hval, ← StringToNumber_eq_nan_iff]
    constructor
    · intro h; exact Value.number.inj h
    · intro h; rw [h]
  have hnan : ¬ DenotesNumber s → ¬ IsWhiteSpace s → asNumber (.string s) = .number .nan := by
    intro hd hw
    apply hiff.2
    rw [isStringNumericLiteral_iff]
    rintro (h | h)
    · exact hw h
    · exact hd h
  have habc : ¬ IsStringNumericLiteral "abc" := (StringToNumber_eq_nan_iff "abc").1 (by decide)
  rw [isStringNumericLiteral_iff, not_or] at habc
  refine ⟨hnan, ?_, ?_, ?_, ⟨habc.2, habc.1⟩, by decide, fun _ => rfl⟩
  · intro hw
    rw [hval, StringToNumber_whiteSpace s hw]
  · intro h
    have := hiff.1 h
    rw [isStringNumericLiteral_iff, not_or] at this
    exact ⟨this.2, this.1⟩
  · intro hd hw L argv hget
    have h := (mem_collect_iff L (some argv) ⟨"workers", "workers", .number⟩ (by decide)
      (.number .nan)).2
    simp only [provider, hget, Policy.apply, hnan hd hw] at h
    exact h ⟨trivial, by simp⟩

/-- Witness of C11 (amended) at the string `"12px"`, which denotes no number
and is not white space. -/
theorem asNumber_non_numeric_witness :
    (¬ DenotesNumber "12px" ∧ ¬ IsWhiteSpace "12px") ∧
    asNumber (.string "12px") = .number .nan :=
  ⟨((asNumber_non_numeric "12px" (by decide)).2.2.1 (by decide)),
    (asNumber_non_numeric "12px" (by decide)).1
      ((asNumber_non_numeric "12px" (by decide)).2.2.1 (by decide)).1
      ((asNumber_non_numeric "12px" (by decide)).2.2.1 (by decide)).2⟩

/-! ## More on the coercers and the collector -/

/-- C12: for every native boolean `b`, `asBoolean b` is `b` itself:
`asBoolean true` is `true` and `asBoolean false` is `false`. -/
theorem asBoolean_bool (b : Bool) :
    asBoolean (.bool b) = .bool b ∧
    asBoolean (.bool true) = .bool true ∧ asBoolean (.bool false) = .bool false :=
  ⟨rfl, rfl, rfl⟩

theorem getProperty_of_no_key (obj : Record) (k : String) (h : ∀ kv ∈ obj, kv.1 ≠ k) :
    getProperty obj k = .undefined := by
  have : obj.lookup k = none := by
    induction obj with
    | nil => rfl
    | cons a t ih =>
      obtain ⟨ka, va⟩ := a
      have hne : ¬ (k = ka) := fun hc => h (ka, va) (List.mem_cons_self _ _) hc.symm
      have hbeq : (k == ka) = false := by simpa using hne
      simp only [List.lookup, hbeq]
      exact ih (fun kv hkv => h kv (List.mem_cons_of_mem _ hkv))
  simp [getProperty, this]

theorem getProperty_cons_ne (obj : Record) (k k' : String) (x : Value) (h : k' ≠ k) :
    getProperty ((k, x) :: obj) k' = getProperty obj k' := by
  have hbeq : (k' == k) = false := by simpa using h
  simp [getProperty, List.lookup, hbeq]

theorem getProperty_sourceOf_aux (L : String → Value) (l : List OptionRow) (k : String)
    (h : ∃ row ∈ l, row.rawKey = k) :
    getProperty (l.map fun row => (row.rawKey, L row.rawKey)) k = L k := by
  induction l with
  | nil => obtain ⟨row, hrow, _⟩ := h; cases hrow
  | cons a t ih =>
    by_cases hk : k = a.rawKey
    · subst hk
      simp [getProperty, List.lookup]
    · have hbeq : (k == a.rawKey) = false := by simpa using hk
      have ht : ∃ row ∈ t, row.rawKey = k := by
        obtain ⟨row, hrow, hr⟩ := h
        rcases List.mem_cons.1 hrow with rfl | hrow
        · exact absurd hr.symm hk
        · exact ⟨row, hrow, hr⟩
      have := ih ht
      simp only [getProperty, List.map_cons, List.lookup, hbeq] at this ⊢
      exact this

theorem getProperty_sourceOf (L : String → Value) (row : OptionRow) (hrow : row ∈ optionTable) :
    getProperty (sourceOf L) row.rawKey = L row.rawKey :=
  getProperty_sourceOf_aux L optionTable row.rawKey ⟨row, hrow, rfl⟩

/-- The output holds the coerced raw value under the field when it is not `undefined`. -/
theorem mem_collect_of_ne (L : String → Value) (argv : Option Record) (row : OptionRow)
    (hrow : row ∈ optionTable) (h : row.policy.apply (provider L argv row.rawKey) ≠ .undefined) :
    (row.field, row.policy.apply (provider L argv row.rawKey)) ∈ collect L argv :=
  (mem_collect_iff L argv row hrow _).2 ⟨rfl, h⟩

/-- C13: for every native number `x` (finite of either sign, a zero, NaN or
an infinity) `asNumber x` is `x` itself; so a number option whose raw value
is the native number `x` has its field in the output with value `x`, and a
native `0` under `workers` or `debug-synchronization` is kept as `0`. -/
theorem asNumber_number (x : JSNumber) :
    asNumber (.number x) = .number x ∧
    (∀ (L : String → Value) (argv : Option Record) (row : OptionRow), row ∈ optionTable →
      row.policy = .number → provider L argv row.rawKey = .number x →
      (row.field, Value.number x) ∈ collect L argv) ∧
    (∀ L : String → Value, collect L (some [("workers", .number JSNumber.zero)])
      = [("workers", .number JSNumber.zero)]) ∧
    (∀ L : String → Value, collect L (some [("debug-synchronization", .number JSNumber.zero)])
      = [("debugSynchronization", .number JSNumber.zero)]) := by
  refine ⟨rfl, ?_, fun _ => rfl, fun _ => rfl⟩
  intro L argv row hrow hp hx
  have h := mem_collect_of_ne L argv row hrow
  rw [hp, hx] at h
  exact h (by simp [Policy.apply, asNumber])

/-- Witness of C13 at the native number `-Infinity` under `workers`. -/
theorem asNumber_number_witness :
    (("workers", Value.number (.inf true)) : String × Value) ∈
      collect (fun _ => .undefined) (some [("workers", .number (.inf true))]) :=
  (asNumber_number (.inf true)).2.1 (fun _ => .undefined) (some [("workers", .number (.inf true))])
    ⟨"workers", "workers", .number⟩ (by decide) rfl rfl

theorem asBooleanChecked_prim (v : Value) :
    asBooleanChecked (.prim v) = .ok (.prim (asBoolean v)) := by
  cases v with
  | bool b => rfl
  | undefined => rfl
  | null => rfl
  | number x => rfl
  | string s => rfl

theorem asNumberChecked_prim (v : Value) :
    asNumberChecked (.prim v) = .ok (.prim (asNumber v)) := by
  cases v with
  | bool b => rfl
  | undefined => rfl
  | null => rfl
  | number x => rfl
  | string s =>
    by_cases h : s = ""
    · subst h; rfl
    · have h1 : strictNeString (.string s) "" = true := by simp [strictNeString, h]
      simp only [asNumberChecked, typeOf, neNullRaw, strictNeStringRaw, neNull, h1, asNumber,
        NumberChecked]
      rfl

theorem getPropertyRaw_liftRecord (r : Record) (key : String) :
    getPropertyRaw (liftRecord r) key = .prim (getProperty r key) := by
  induction r with
  | nil => rfl
  | cons a t ih =>
    obtain ⟨k, v⟩ := a
    by_cases h : key = k
    · subst h
      simp [getPropertyRaw, getProperty, liftRecord, List.lookup]
    · have hbeq : (key == k) = false := by simpa using h
      simp only [getPropertyRaw, getProperty, liftRecord, List.map_cons, List.lookup, hbeq] at ih ⊢
      exact ih

theorem omitByRaw_liftRecord (l : Record) :
    omitByRaw (liftRecord l) isUndefinedRaw = liftRecord (omitBy l isUndefined) := by
  induction l with
  | nil => rfl
  | cons a t ih =>
    simp only [omitByRaw, liftRecord, omitBy, List.map_cons, List.filter_cons, isUndefinedRaw] at ih ⊢
    by_cases h : isUndefined a.2 = true <;> simp [h, ih]

theorem ok_bind {α β : Type} (x : α) (f : α → Except JSError β) :
    (Except.ok x >>= f) = f x := rfl

/-- The collector run on an options object whose reads all succeed with
primitive values returns the record of the option table. -/
theorem collectCliConfigChecked_eq (E : String → Except JSError Raw) (argv : Option RawRecord)
    (g : String → Value)
    (hget : ∀ key, (match argv with
        | some a => (pure (getPropertyRaw a key) : Except JSError Raw)
        | none => E key) = pure (Raw.prim (g key))) :
    collectCliConfigChecked E (.options argv) =
      .ok (liftRecord (omitBy
        (optionTable.map fun row => (row.field, row.policy.apply (g row.rawKey))) isUndefined)) := by
  unfold collectCliConfigChecked
  simp only [destructureArgv, ok_bind, hget, pure_bind, asBooleanChecked_prim,
    asNumberChecked_prim]
  rw [← omitByRaw_liftRecord]
  rfl

/-- `asNumber` raises on a Symbol, alone and under a number option. -/
theorem asNumberChecked_symbol (E : String → Except JSError Raw) :
    asNumberChecked .symbol = .error (.typeError "Cannot convert a Symbol value to a number") ∧
    collectCliConfigChecked E (.options (some [("workers", .symbol)])) =
      .error (.typeError "Cannot convert a Symbol value to a number") :=
  ⟨rfl, rfl⟩

/-- C14 as stated fails: called with no argument, so with no explicit
source, and against a collaborator that answers every query, the collector
raises a TypeError when it destructures `{ argv }`; so it does for `null`. -/
theorem collectCliConfig_no_argument :
    collectCliConfigChecked (fun _ => .ok (.prim (.string "1"))) .undefined =
      .error (.typeError "Cannot destructure property 'argv' of 'undefined'") ∧
    collectCliConfigChecked (fun _ => .ok (.prim (.string "1"))) .null =
      .error (.typeError "Cannot destructure property 'argv' of 'null'") :=
  ⟨rfl, rfl⟩

/-- C14, amended: called with an options object the collector never raises.
For every explicit source of primitive raw values it returns the record of
the collector, whatever the collaborator does; with no explicit source in
the options object and a collaborator that answers every query with a
primitive value, it returns the record of the collector; `asBoolean` and
`asNumber` return their value without raising for every primitive raw
value. Called with no options object (`undefined` or `null`) it raises. -/
theorem collect_never_raises (E : String → Except JSError Raw) :
    (∀ argv : Record, collectCliConfigChecked E (.options (some (liftRecord argv))) =
      .ok (liftRecord (collect (fun _ => .undefined) (some argv)))) ∧
    (∀ L : String → Value, (∀ key, E key = .ok (.prim (L key))) →
      collectCliConfigChecked E (.options none) = .ok (liftRecord (collect L none))) ∧
    (∀ v : Value, asBooleanChecked (.prim v) = .ok (.prim (asBoolean v)) ∧
      asNumberChecked (.prim v) = .ok (.prim (asNumber v))) ∧
    (∃ e, collectCliConfigChecked E .undefined = .error e) ∧
    (∃ e, collectCliConfigChecked E .null = .error e) := by
  refine ⟨?_, ?_, fun v => ⟨asBooleanChecked_prim v, asNumberChecked_prim v⟩,
    ⟨_, rfl⟩, ⟨_, rfl⟩⟩
  · intro argv
    rw [collect_eq_table]
    exact collectCliConfigChecked_eq E (some (liftRecord argv))
      (provider (fun _ => .undefined) (some argv))
      (fun key => by simp only [getPropertyRaw_liftRecord, provider])
  · intro L hL
    rw [collect_eq_table]
    exact collectCliConfigChecked_eq E none (provider L none)
      (fun key => by simp only [hL, provider]; rfl)

/-- Witness of C14 (amended) with no explicit source in the options object,
against a collaborator that answers `"1"` to every query. -/
theorem collect_never_raises_witness :
    collectCliConfigChecked (fun _ => .ok (.prim (.string "1"))) (.options none) =
      .ok (liftRecord (collect (fun _ => .string "1") none)) :=
  (collect_never_raises (fun _ => .ok (.prim (.string "1")))).2.1 (fun _ => .string "1")
    (fun _ => rfl)

/-- C15 as stated fails: the option `keepLockFile` is read under the key
`keepLockFile`, its canonical field name, and not under the hyphenated
`keep-lock-file`; a source keyed `keepLockFile` contributes the field, one
keyed `keep-lock-file` contributes nothing. -/
theorem keepLockFile_read_camelCase :
    (⟨"keepLockFile", "keepLockFile", .boolean⟩ : OptionRow) ∈ optionTable ∧
    kebabCase "keepLockFile" = "keep-lock-file" ∧
    collect (fun _ => .undefined) (some [("keepLockFile", .bool true)])
      = [("keepLockFile", .bool true)] ∧
    collect (fun _ => .undefined) (some [("keep-lock-file", .bool true)]) = [] := by
  decide

/-- C15, amended: every option other than `keepLockFile` is read under the
lower-case hyphen-separated form of its canonical field name, and
`keepLockFile` under `keepLockFile`; the output field is decided by the
source value under that raw key; so for an option other than `keepLockFile`
whose raw key differs from its field name, an explicit source keyed by
canonical field names contributes nothing. -/
theorem raw_keys_kebabCase (L : String → Value) (row : OptionRow) (hrow : row ∈ optionTable) :
    (row.field ≠ "keepLockFile" → row.rawKey = kebabCase row.field) ∧
    (row.field = "keepLockFile" → row.rawKey = "keepLockFile") ∧
    (∀ (argv : Record) (v : Value), (row.field, v) ∈ collect L (some argv) ↔
      v = row.policy.apply (getProperty argv row.rawKey) ∧ v ≠ .undefined) ∧
    (row.field ≠ "keepLockFile" → row.rawKey ≠ row.field → ∀ argv : Record,
      (∀ kv ∈ argv, kv.1 ∈ optionTable.map OptionRow.field) →
      ∀ v, (row.field, v) ∉ collect L (some argv)) := by
  have h1 : ∀ r ∈ optionTable, r.field ≠ "keepLockFile" → r.rawKey = kebabCase r.field := by
    decide
  have h2 : ∀ r ∈ optionTable, r.field = "keepLockFile" → r.rawKey = "keepLockFile" := by
    decide
  have h3 : ∀ r ∈ optionTable, r.rawKey ≠ r.field →
      r.rawKey ∉ optionTable.map OptionRow.field := by
    decide
  refine ⟨h1 row hrow, h2 row hrow, fun argv v => mem_collect_iff L (some argv) row hrow v, ?_⟩
  intro _ hne argv hkeys v hv
  obtain ⟨hv1, hv2⟩ := (mem_collect_iff L (some argv) row hrow v).1 hv
  have hget : getProperty argv row.rawKey = .undefined := by
    apply getProperty_of_no_key
    intro kv hkv hc
    exact h3 row hrow hne (hc ▸ hkeys kv hkv)
  simp only [provider, hget, Policy.apply_undefined] at hv1
  exact hv2 hv1

/-- Witness of C15 (amended) at the source `{debugSynchronization: "5"}`,
keyed by the canonical field name: no field `debugSynchronization`. -/
theorem raw_keys_kebabCase_witness :
    kebabCase "debugSynchronization" = "debug-synchronization" ∧
    (("debugSynchronization", asNumber (.string "5")) : String × Value) ∉
      collect (fun _ => .undefined) (some [("debugSynchronization", .string "5")]) :=
  ⟨by decide,
    (raw_keys_kebabCase (fun _ => .undefined)
      ⟨"debug-synchronization", "debugSynchronization", .number⟩ (by decide)).2.2.2
      (by decide) (by decide) [("debugSynchronization", .string "5")] (by decide)
      (asNumber (.string "5"))⟩

/-- C16: for every collaborator `L`, the collector without explicit source
against `L` returns the same record as the collector on the explicit source
that maps each raw option key `k` to `L k`; and without a source the
collaborator is queried with exactly the raw keys of the option table, in
order. -/
theorem collect_interchangeable (L L' : String → Value) :
    collect L none = collect L' (some (sourceOf L)) ∧
    ((collectCliConfig loggingArgValue none).run []).2 = optionTable.map OptionRow.rawKey := by
  refine ⟨?_, rfl⟩
  have h : (optionTable.map fun row =>
        (row.field, row.policy.apply (provider L none row.rawKey))) =
      (optionTable.map fun row =>
        (row.field, row.policy.apply (provider L' (some (sourceOf L)) row.rawKey))) :=
    List.map_congr_left fun row hrow => by
      simp only [provider, getProperty_sourceOf L row hrow]
  rw [collect_eq_table, collect_eq_table, h]

/-- C17: for every explicit source and every identity option (each of the
fifteen identity keys is one), a source value `v` other than `undefined`
under the raw key is held unchanged under the canonical field, and is the
only value held there. -/
theorem collect_identity (L : String → Value) (argv : Record) (row : OptionRow)
    (hrow : row ∈ optionTable) (hk : row.rawKey ∈ identityKeys)
    (hv : getProperty argv row.rawKey ≠ .undefined) :
    (row.field, getProperty argv row.rawKey) ∈ collect L (some argv) ∧
    (∀ v, (row.field, v) ∈ collect L (some argv) → v = getProperty argv row.rawKey) ∧
    (∀ k ∈ identityKeys, ∃ r ∈ optionTable, r.rawKey = k ∧ r.policy = .identity) := by
  have hp : row.policy = .identity := by
    have : ∀ r ∈ optionTable, r.rawKey ∈ identityKeys → r.policy = .identity := by decide
    exact this row hrow hk
  have h := mem_collect_iff L (some argv) row hrow
  simp only [provider, hp, Policy.apply] at h
  exact ⟨(h _).2 ⟨rfl, hv⟩, fun v hv' => ((h v).1 hv').1, by decide⟩

/-- Witness of C17 at the source `{"device-name": "false"}`: the string stays
the string `"false"`. -/
theorem collect_identity_witness :
    (("deviceName", Value.string "false") : String × Value) ∈
      collect (fun _ => .undefined) (some [("device-name", .string "false")]) :=
  (collect_identity (fun _ => .undefined) [("device-name", .string "false")]
    ⟨"device-name", "deviceName", .identity⟩ (by decide) (by decide) (by decide)).1

/-- C18: for every explicit source with `null` under the raw key of an
option: under a boolean or number policy the field is omitted (`null` is
coerced to `undefined`), under the identity policy the field is kept with
value `null`. -/
theorem collect_null (L : String → Value) (argv : Record) (row : OptionRow)
    (hrow : row ∈ optionTable) (hnull : getProperty argv row.rawKey = .null) :
    (row.policy ≠ .identity → ∀ v, (row.field, v) ∉ collect L (some argv)) ∧
    (row.policy = .identity → (row.field, Value.null) ∈ collect L (some argv)) ∧
    asBoolean .null = .undefined ∧ asNumber .null = .undefined := by
  have h := mem_collect_iff L (some argv) row hrow
  simp only [provider, hnull] at h
  refine ⟨?_, ?_, rfl, rfl⟩
  · intro hp v hv
    obtain ⟨h1, h2⟩ := (h v).1 hv
    apply h2
    rw [h1]
    cases hpol : row.policy with
    | identity => exact absurd hpol hp
    | boolean => rfl
    | number => rfl
  · intro hp
    rw [hp] at h
    exact (h _).2 ⟨rfl, by simp [Policy.apply]⟩

/-- Witness of C18 at the source `{cleanup: null, "device-name": null}`:
`cleanup` is omitted, `deviceName` is kept with value `null`. -/
theorem collect_null_witness :
    getProperty [("cleanup", .null), ("device-name", .null)] "cleanup" = .null ∧
    (("cleanup", Value.null) : String × Value) ∉
      collect (fun _ => .undefined) (some [("cleanup", .null), ("device-name", .null)]) ∧
    (("deviceName", Value.null) : String × Value) ∈
      collect (fun _ => .undefined) (some [("cleanup", .null), ("device-name", .null)]) :=
  ⟨rfl,
    (collect_null (fun _ => .undefined) [("cleanup", .null), ("device-name", .null)]
      ⟨"cleanup", "cleanup", .boolean⟩ (by decide) rfl).1 (by decide) .null,
    (collect_null (fun _ => .undefined) [("cleanup", .null), ("device-name", .null)]
      ⟨"device-name", "deviceName", .identity⟩ (by decide) rfl).2.1 rfl⟩

/-- C19: `asNumber true` is the Number 1 and `asNumber false` is the Number
0; so for a number option (`workers`, `debugSynchronization`) whose raw
value, from the source or from the collaborator, is `true` the output holds
1 under its field, and for `false` it holds 0 rather than omitting it. -/
theorem asNumber_bool (L : String → Value) (argv : Option Record) (row : OptionRow)
    (hrow : row ∈ optionTable) (hp : row.policy = .number) :
    asNumber (.bool true) = .number JSNumber.one ∧ JSNumber.one.toRat = some 1 ∧
    asNumber (.bool false) = .number JSNumber.zero ∧ JSNumber.zero.toRat = some 0 ∧
    (provider L argv row.rawKey = .bool true →
      (row.field, Value.number JSNumber.one) ∈ collect L argv) ∧
    (provider L argv row.rawKey = .bool false →
      (row.field, Value.number JSNumber.zero) ∈ collect L argv) ∧
    (∀ r ∈ optionTable, r.policy = .number ↔ (r.field = "workers" ∨ r.field = "debugSynchronization")) := by
  have h := mem_collect_of_ne L argv row hrow
  rw [hp] at h
  refine ⟨by decide, by norm_num [JSNumber.toRat, JSNumber.one],
    rfl, by norm_num [JSNumber.toRat, JSNumber.zero], ?_, ?_, by decide⟩
  · intro hx
    rw [hx] at h
    exact h (by decide)
  · intro hx
    rw [hx] at h
    exact h (by decide)

/-- Witness of C19 without a source, against a collaborator that answers
`true` to every query: `workers` is 1. -/
theorem asNumber_bool_witness :
    (("workers", Value.number JSNumber.one) : String × Value) ∈
      collect (fun _ => .bool true) none :=
  (asNumber_bool (fun _ => .bool true) none ⟨"workers", "workers", .number⟩
    (by decide) rfl).2.2.2.2.1 rfl

/-- C20: for every option, two explicit sources that agree on its raw key
give outputs that agree on its canonical field (both omit it, or both hold
the same value); setting the source at another key leaves the field as it
was. -/
theorem collect_field_independent (L : String → Value) (row : OptionRow)
    (hrow : row ∈ optionTable) :
    (∀ argv1 argv2 : Record, getProperty argv1 row.rawKey = getProperty argv2 row.rawKey →
      ∀ v, (row.field, v) ∈ collect L (some argv1) ↔ (row.field, v) ∈ collect L (some argv2)) ∧
    (∀ (argv : Record) (k : String) (x : Value), k ≠ row.rawKey →
      ∀ v, (row.field, v) ∈ collect L (some ((k, x) :: argv)) ↔
        (row.field, v) ∈ collect L (some argv)) := by
  have key : ∀ argv1 argv2 : Record,
      getProperty argv1 row.rawKey = getProperty argv2 row.rawKey →
      ∀ v, (row.field, v) ∈ collect L (some argv1) ↔ (row.field, v) ∈ collect L (some argv2) := by
    intro argv1 argv2 h v
    rw [mem_collect_iff L (some argv1) row hrow, mem_collect_iff L (some argv2) row hrow]
    simp only [provider, h]
  refine ⟨key, ?_⟩
  intro argv k x hk v
  exact key _ _ (getProperty_cons_ne argv k row.rawKey x (Ne.symm hk)) v

/-- Witness of C20: adding `workers` to the source `{cleanup: "1"}` leaves
the field `cleanup` as it was. -/
theorem collect_field_independent_witness :
    (("cleanup", Value.bool true) : String × Value) ∈
        collect (fun _ => .undefined) (some [("workers", .string "4"), ("cleanup", .string "1")]) ↔
      (("cleanup", Value.bool true) : String × Value) ∈
        collect (fun _ => .undefined) (some [("cleanup", .string "1")]) :=
  (collect_field_independent (fun _ => .undefined) ⟨"cleanup", "cleanup", .boolean⟩
    (by decide)).2 [("cleanup", .string "1")] "workers" (.string "4") (by decide) (.bool true)

end Detox
